
import Mathlib

set_option maxRecDepth 4000

/-!
Verification development for the pg_replicate replication pipeline
(crate pg_replicate: conversions/{cdc_event,numeric,table_row,mod}.rs and
pipeline/batching/data_pipeline.rs), as a shallow embedding in Lean 4.

Byte strings from the wire are modelled as `List Nat` (one entry per byte).
Rust `Result`-returning code is modelled with `RResult`, which also has a
`panic` outcome for places where the Rust code can abort (index out of
bounds, `unwrap` on a driver error, an asserting constructor), so that a
typed error return and a crash stay distinguishable.
-/

/-- Outcome of running a fallible piece of Rust code: a typed error, a
successful value, or a panic (abort). -/
inductive RResult (ε α : Type) where
  | panic : RResult ε α
  | err : ε → RResult ε α
  | ok : α → RResult ε α
deriving DecidableEq, Repr

def RResult.bind {ε α β : Type} : RResult ε α → (α → RResult ε β) → RResult ε β
  | .panic, _ => .panic
  | .err e, _ => .err e
  | .ok a, f => f a

instance {ε : Type} : Monad (RResult ε) where
  pure := RResult.ok
  bind := RResult.bind

/-- True exactly for the byte of an ASCII decimal digit. -/
def isAsciiDigit (c : Nat) : Bool := 48 ≤ c && c ≤ 57

/-- Numeric value of a list of ASCII digit bytes, most significant first. -/
def digitsToNat : List Nat → Nat
  | [] => 0
  | c :: r => (digitsToNat r) + (c - 48) * 10 ^ r.length

/-- True for a UTF-8 continuation byte (0x80-0xBF). -/
def isUtf8Cont (c : Nat) : Bool := 0x80 ≤ c && c ≤ 0xBF

/-- UTF-8 validity of a byte list, following the table in RFC 3629; models
Rust `str::from_utf8` succeeding. -/
def utf8Valid : List Nat → Bool
  | [] => true
  | b :: rest =>
    if b ≤ 0x7F then utf8Valid rest
    else if 0xC2 ≤ b && b ≤ 0xDF then
      match rest with
      | c1 :: r => isUtf8Cont c1 && utf8Valid r
      | [] => false
    else if b = 0xE0 then
      match rest with
      | c1 :: c2 :: r => (0xA0 ≤ c1 && c1 ≤ 0xBF) && isUtf8Cont c2 && utf8Valid r
      | _ => false
    else if (0xE1 ≤ b && b ≤ 0xEC) || b = 0xEE || b = 0xEF then
      match rest with
      | c1 :: c2 :: r => isUtf8Cont c1 && isUtf8Cont c2 && utf8Valid r
      | _ => false
    else if b = 0xED then
      match rest with
      | c1 :: c2 :: r => (0x80 ≤ c1 && c1 ≤ 0x9F) && isUtf8Cont c2 && utf8Valid r
      | _ => false
    else if b = 0xF0 then
      match rest with
      | c1 :: c2 :: c3 :: r =>
          (0x90 ≤ c1 && c1 ≤ 0xBF) && isUtf8Cont c2 && isUtf8Cont c3 && utf8Valid r
      | _ => false
    else if 0xF1 ≤ b && b ≤ 0xF3 then
      match rest with
      | c1 :: c2 :: c3 :: r =>
          isUtf8Cont c1 && isUtf8Cont c2 && isUtf8Cont c3 && utf8Valid r
      | _ => false
    else if b = 0xF4 then
      match rest with
      | c1 :: c2 :: c3 :: r =>
          (0x80 ≤ c1 && c1 ≤ 0x8F) && isUtf8Cont c2 && isUtf8Cont c3 && utf8Valid r
      | _ => false
    else false

/-- Rust integer parsing (`str::parse` for a signed integer type with
bounds `lo..=hi`), on the raw bytes of the string: an optional single
leading sign, then a non-empty run of ASCII digits, with a range check.
Rust reports overflow as soon as an intermediate accumulation leaves the
range; since partial accumulations are bounded by the final value, that is
equivalent to the final range check modelled here. -/
def rustParseInt (lo hi : Int) (bs : List Nat) : Option Int :=
  match bs with
  | [] => none
  | b :: rest =>
    let (neg, ds) :=
      if b = 43 then (false, rest)
      else if b = 45 then (true, rest)
      else (false, bs)
    if ds.isEmpty then none
    else if ds.all isAsciiDigit then
      let v : Int := (digitsToNat ds : Nat)
      let n := if neg then -v else v
      if lo ≤ n && n ≤ hi then some n else none
    else none

/-- Rust `str::parse::<bool>`: exactly the strings true and false. -/
def rustParseBool (bs : List Nat) : Option Bool :=
  if bs = [116, 114, 117, 101] then some true
  else if bs = [102, 97, 108, 115, 101] then some false
  else none

/-! ## Data model: table schemas and the row cell type of table_row.rs -/

/-- Table id (Postgres relation OID). -/
abbrev TableId : Type := Nat

/-- Postgres column types distinguished by the decoders; every type the
matched arms of the source name, plus representatives for the fallthrough
arm (anything else). Models tokio_postgres `Type`. -/
inductive PgType where
  | bool | char | bpchar | varchar | name | text
  | int2 | int4 | int8
  | timestamp | timestamptz
  | uuid | uuidArray
  | float8 | numeric | bytea
deriving DecidableEq, Repr

/-- Modelled from the spec: `ColumnSchema` lives in crate::table (table.rs
is not under src/); per the spec data model it is (column name, Postgres
type OID, nullable flag, primary-key position). Only `typ` and `nullable`
are read by the code under verification. -/
structure ColumnSchema where
  colName : List Nat
  typ : PgType
  nullable : Bool
  primaryKeyPos : Option Nat
deriving DecidableEq, Repr

/-- Modelled from the spec: `TableSchema` lives in crate::table (table.rs
is not under src/); per the spec data model it is (table id, namespace,
relation name, ordered list of ColumnSchema). -/
structure TableSchema where
  tableId : TableId
  tableNamespace : List Nat
  tableName : List Nat
  columnSchemas : List ColumnSchema
deriving DecidableEq, Repr

/-- The row cell variant of conversions/table_row.rs (the one used by both
wire decoders). String-like payloads carry the raw bytes of the Rust
String. -/
inductive Cell where
  | Null : Cell
  | Bool : Bool → Cell
  | String : List Nat → Cell
  | I16 : Int → Cell
  | I32 : Int → Cell
  | I64 : Int → Cell
  | TimeStamp : List Nat → Cell
  | Bytes : List Nat → Cell
  | Uuid : List Nat → Cell
  | Array : List Cell → Cell

/-- TableRow of conversions/table_row.rs: ordered cells. -/
structure TableRow where
  values : List Cell

/-! ## Chrono model

The decoders call chrono parse_from_str / format with the fixed format
strings written in the source. The model below implements those two
formats (naive and fixed-offset timestamps) in good faith: field-by-field
parsing with calendar validation, and re-emission with zero padding and
chrono %.f fraction printing (empty, 3, 6 or 9 digits). Leap-second
smearing of chrono (second 60 folding into nanoseconds) is not modelled;
no claim under verification depends on it. -/

/-- Parsed naive timestamp fields plus nanoseconds. -/
structure NaiveTs where
  year : Int
  month : Nat
  day : Nat
  hour : Nat
  minute : Nat
  second : Nat
  nanos : Nat
deriving DecidableEq, Repr

def isLeapYear (y : Int) : Bool := y % 4 = 0 && (y % 100 ≠ 0 || y % 400 = 0)

def daysInMonth (y : Int) (m : Nat) : Nat :=
  if m = 2 then (if isLeapYear y then 29 else 28)
  else if m = 4 || m = 6 || m = 9 || m = 11 then 30
  else 31

/-- Calendar and clock validity as chrono checks it when assembling a
NaiveDateTime (year bounds are the chrono NaiveDate year range). -/
def validNaiveTs (t : NaiveTs) : Bool :=
  (-262144 ≤ t.year && t.year ≤ 262143) &&
  (1 ≤ t.month && t.month ≤ 12) &&
  (1 ≤ t.day && t.day ≤ daysInMonth t.year t.month) &&
  t.hour ≤ 23 && t.minute ≤ 59 && t.second ≤ 59 && t.nanos < 1000000000

/-- Take up to `k` leading ASCII digits (at least one), returning their
value and the rest; none when no digit leads. -/
def takeDigits : Nat → Nat → List Nat → Option (Nat × List Nat)
  | 0, acc, bs => some (acc, bs)
  | _ + 1, acc, [] => some (acc, [])
  | k + 1, acc, c :: r =>
      if isAsciiDigit c then takeDigits k (acc * 10 + (c - 48)) r
      else some (acc, c :: r)

def parseFixedDigits (maxK : Nat) (bs : List Nat) : Option (Nat × List Nat) :=
  match bs with
  | c :: r => if isAsciiDigit c then takeDigits (maxK - 1) (c - 48) r else none
  | [] => none

/-- Chrono whitespace item: consumes any run (possibly empty) of spaces. -/
def skipSpaces : List Nat → List Nat
  | 32 :: r => skipSpaces r
  | bs => bs

def expectByte (b : Nat) : List Nat → Option (List Nat)
  | c :: r => if c = b then some r else none
  | [] => none

/-- Parse the %.f item of chrono: either nothing, or a dot followed by one
to nine digits scaled to nanoseconds. -/
def parseDotFraction (bs : List Nat) : Option (Nat × List Nat) :=
  match bs with
  | 46 :: r =>
    match r.takeWhile isAsciiDigit with
    | [] => none
    | ds =>
      if ds.length ≤ 9 then
        some (digitsToNat ds * 10 ^ (9 - ds.length), r.drop ds.length)
      else none
  | _ => some (0, bs)

/-- Parse a possibly signed year (chrono %Y), digits taken greedily. -/
def parseYear (bs : List Nat) : Option (Int × List Nat) :=
  match bs with
  | 43 :: r => (parseFixedDigits 18 r).map fun (v, rest) => ((v : Int), rest)
  | 45 :: r => (parseFixedDigits 18 r).map fun (v, rest) => (-(v : Int), rest)
  | _ => (parseFixedDigits 18 bs).map fun (v, rest) => ((v : Int), rest)

/-- Chrono NaiveDateTime::parse_from_str with format %Y-%m-%d %H:%M:%S%.f,
requiring the whole input to be consumed. -/
def parseNaiveTs (bs : List Nat) : Option NaiveTs := do
  let (y, bs) ← parseYear bs
  let bs ← expectByte 45 bs
  let (mo, bs) ← parseFixedDigits 2 bs
  let bs ← expectByte 45 bs
  let (d, bs) ← parseFixedDigits 2 bs
  let bs := skipSpaces bs
  let (h, bs) ← parseFixedDigits 2 bs
  let bs ← expectByte 58 bs
  let (mi, bs) ← parseFixedDigits 2 bs
  let bs ← expectByte 58 bs
  let (s, bs) ← parseFixedDigits 2 bs
  let (ns, bs) ← parseDotFraction bs
  let t : NaiveTs := ⟨y, mo, d, h, mi, s, ns⟩
  if validNaiveTs t && bs.isEmpty then some t else none

/-- ASCII digits of `n` zero-padded to width `w`. -/
def padNat (w n : Nat) : List Nat :=
  let ds := (Nat.toDigits 10 n).map fun c => c.toNat
  List.replicate (w - ds.length) 48 ++ ds

/-- Chrono %Y formatting: zero-padded to four digits, a leading minus for
negative years and a leading plus for years above 9999. -/
def formatYear (y : Int) : List Nat :=
  if y < 0 then 45 :: padNat 4 (-y).toNat
  else if y > 9999 then 43 :: padNat 4 y.toNat
  else padNat 4 y.toNat

/-- Chrono %.f formatting: empty when zero, else a dot and 3, 6 or 9
digits depending on the precision actually present. -/
def formatFraction (ns : Nat) : List Nat :=
  if ns = 0 then []
  else if ns % 1000000 = 0 then 46 :: padNat 3 (ns / 1000000)
  else if ns % 1000 = 0 then 46 :: padNat 6 (ns / 1000)
  else 46 :: padNat 9 ns

/-- Chrono format %Y-%m-%d %H:%M:%S%.f of a naive timestamp. -/
def formatNaiveTs (t : NaiveTs) : List Nat :=
  formatYear t.year ++ [45] ++ padNat 2 t.month ++ [45] ++ padNat 2 t.day ++ [32] ++
  padNat 2 t.hour ++ [58] ++ padNat 2 t.minute ++ [58] ++ padNat 2 t.second ++
  formatFraction t.nanos

/-- Fixed-offset timestamp: naive fields in local time plus the offset in
seconds east of UTC. -/
structure TzTs where
  naive : NaiveTs
  offsetSecs : Int
deriving DecidableEq, Repr

/-- Chrono %#z parsing (permissive offset): sign then two hour digits then
optionally minutes with an optional colon, or a literal Z; the assembled
offset must be less than a day in magnitude. -/
def parseOffsetPermissive (bs : List Nat) : Option (Int × List Nat) :=
  match bs with
  | 90 :: r => some (0, r)
  | 122 :: r => some (0, r)
  | c :: r =>
    if c = 43 || c = 45 then do
      let (h, r1) ← parseFixedDigits 2 r
      let (m, r2) :=
        match r1 with
        | 58 :: r2 =>
          match parseFixedDigits 2 r2 with
          | some (m, r3) => (m, r3)
          | none => (0, 58 :: r2)
        | r2 =>
          match parseFixedDigits 2 r2 with
          | some (m, r3) => (m, r3)
          | none => (0, r2)
      let total : Int := (h : Int) * 3600 + (m : Int) * 60
      let signed := if c = 45 then -total else total
      if total < 86400 then some (signed, r2) else none
    else none
  | [] => none

/-- Chrono DateTime<FixedOffset>::parse_from_str with format
%Y-%m-%d %H:%M:%S%.f%#z. -/
def parseTzTs (bs : List Nat) : Option TzTs := do
  let (y, bs) ← parseYear bs
  let bs ← expectByte 45 bs
  let (mo, bs) ← parseFixedDigits 2 bs
  let bs ← expectByte 45 bs
  let (d, bs) ← parseFixedDigits 2 bs
  let bs := skipSpaces bs
  let (h, bs) ← parseFixedDigits 2 bs
  let bs ← expectByte 58 bs
  let (mi, bs) ← parseFixedDigits 2 bs
  let bs ← expectByte 58 bs
  let (s, bs) ← parseFixedDigits 2 bs
  let (ns, bs) ← parseDotFraction bs
  let (off, bs) ← parseOffsetPermissive bs
  let t : NaiveTs := ⟨y, mo, d, h, mi, s, ns⟩
  if validNaiveTs t && bs.isEmpty then some ⟨t, off⟩ else none

/-- Chrono %:z formatting: sign, two hour digits, colon, two minute
digits. -/
def formatOffsetColon (off : Int) : List Nat :=
  let a := off.natAbs
  (if off < 0 then [45] else [43]) ++ padNat 2 (a / 3600) ++ [58] ++ padNat 2 (a % 3600 / 60)

/-- Chrono format %Y-%m-%d %H:%M:%S%.f%:z of a fixed-offset timestamp. -/
def formatTzTs (t : TzTs) : List Nat :=
  formatNaiveTs t.naive ++ formatOffsetColon t.offsetSecs

/-! ## CDC event decoder (conversions/cdc_event.rs) -/

/-- Tuple data of a logical replication message column, as in
postgres_protocol (Null, UnchangedToast, or Text bytes). -/
inductive TupleData where
  | null : TupleData
  | unchangedToast : TupleData
  | text : List Nat → TupleData
deriving DecidableEq, Repr

/-- CdcEventConversionError of conversions/cdc_event.rs (source payloads
such as the wrapped parse errors are collapsed to the variant name; the
MissingSchema payload, which the claims inspect, is kept). -/
inductive CdcEventConversionError where
  | messageNotSupported
  | unknownReplicationMessage
  | unchangedToastNotSupported
  | invalidStr
  | invalidBool
  | invalidInt
  | invalidTimestamp
  | unsupportedType
  | outOfRangeTimestamp
  | missingTupleInDeleteBody
  | missingSchema : TableId → CdcEventConversionError
  | invalidNamespace
  | invalidRelationName
  | invalidColumnName
deriving DecidableEq, Repr

/-- Begin message body (fields other than identity are not read by the
converter; one field stands for the transaction metadata). -/
structure BeginBody where
  payload : Nat
deriving DecidableEq, Repr

/-- Commit message body. -/
structure CommitBody where
  payload : Nat
deriving DecidableEq, Repr

/-- Origin message body. -/
structure OriginBody where
  payload : Nat
deriving DecidableEq, Repr

/-- Relation message body. -/
structure RelationBody where
  payload : Nat
deriving DecidableEq, Repr

/-- Type message body. -/
structure TypeBody where
  payload : Nat
deriving DecidableEq, Repr

/-- Truncate message body. -/
structure TruncateBody where
  payload : Nat
deriving DecidableEq, Repr

/-- Insert message body: relation id and the new tuple. -/
structure InsertBody where
  relId : TableId
  newTuple : List TupleData
deriving DecidableEq, Repr

/-- Update message body: relation id, optional key tuple, optional old
tuple, and the new tuple. -/
structure UpdateBody where
  relId : TableId
  keyTuple : Option (List TupleData)
  oldTuple : Option (List TupleData)
  newTuple : List TupleData
deriving DecidableEq, Repr

/-- Delete message body: relation id, optional key tuple, optional old
tuple. -/
structure DeleteBody where
  relId : TableId
  keyTuple : Option (List TupleData)
  oldTuple : Option (List TupleData)
deriving DecidableEq, Repr

/-- LogicalReplicationMessage of postgres_protocol; `other` stands for the
variants a newer server may add (the Rust enum is non_exhaustive). -/
inductive LogicalReplicationMessage where
  | begin : BeginBody → LogicalReplicationMessage
  | commit : CommitBody → LogicalReplicationMessage
  | origin : OriginBody → LogicalReplicationMessage
  | relation : RelationBody → LogicalReplicationMessage
  | typeMessage : TypeBody → LogicalReplicationMessage
  | insert : InsertBody → LogicalReplicationMessage
  | update : UpdateBody → LogicalReplicationMessage
  | delete : DeleteBody → LogicalReplicationMessage
  | truncate : TruncateBody → LogicalReplicationMessage
  | other : LogicalReplicationMessage
deriving DecidableEq, Repr

/-- ReplicationMessage of postgres_protocol: XLogData wrapping a logical
message (the wrapper WAL positions, which into_data discards, are not
modelled), PrimaryKeepAlive with its reply byte, or a future top-level
variant (the enum is non_exhaustive). -/
inductive ReplicationMessage where
  | xLogData : LogicalReplicationMessage → ReplicationMessage
  | primaryKeepAlive : Nat → ReplicationMessage
  | other : ReplicationMessage
deriving DecidableEq, Repr

/-- CdcEvent of conversions/cdc_event.rs. -/
inductive CdcEvent where
  | begin : BeginBody → CdcEvent
  | commit : CommitBody → CdcEvent
  | insert : TableId × TableRow → CdcEvent
  | update : TableId → Option TableRow → Option TableRow → TableRow → CdcEvent
  | delete : TableId × TableRow → CdcEvent
  | relation : RelationBody → CdcEvent
  | typeEvent : TypeBody → CdcEvent
  | keepAliveRequested : Bool → CdcEvent

/-- BatchBoundary for CdcEvent (impl at the bottom of cdc_event.rs):
Commit and KeepAliveRequested are the only last-in-batch events. -/
def CdcEvent.isLastInBatch : CdcEvent → Bool
  | .commit _ => true
  | .keepAliveRequested _ => true
  | _ => false

/-- CdcEventConverter::from_tuple_data: dispatch on tuple data then on the
column type, parsing the text payload. -/
def fromTupleData (typ : PgType) (val : TupleData) :
    RResult CdcEventConversionError Cell :=
  match val with
  | .null => .ok .Null
  | .unchangedToast => .err .unchangedToastNotSupported
  | .text bytes =>
    match typ with
    | .bool =>
      if !utf8Valid bytes then .err .invalidStr
      else if bytes = [116] then .ok (.Bool true)
      else if bytes = [102] then .ok (.Bool false)
      else match rustParseBool bytes with
        | some b => .ok (.Bool b)
        | none => .err .invalidBool
    | .char | .bpchar | .varchar | .name | .text =>
      if utf8Valid bytes then .ok (.String bytes) else .err .invalidStr
    | .int2 =>
      if !utf8Valid bytes then .err .invalidStr
      else match rustParseInt (-32768) 32767 bytes with
        | some n => .ok (.I16 n)
        | none => .err .invalidInt
    | .int4 =>
      if !utf8Valid bytes then .err .invalidStr
      else match rustParseInt (-2147483648) 2147483647 bytes with
        | some n => .ok (.I32 n)
        | none => .err .invalidInt
    | .int8 =>
      if !utf8Valid bytes then .err .invalidStr
      else match rustParseInt (-9223372036854775808) 9223372036854775807 bytes with
        | some n => .ok (.I64 n)
        | none => .err .invalidInt
    | .timestamp =>
      if !utf8Valid bytes then .err .invalidStr
      else match parseNaiveTs bytes with
        | some t => .ok (.TimeStamp (formatNaiveTs t))
        | none => .err .invalidTimestamp
    | .timestamptz =>
      if !utf8Valid bytes then .err .invalidStr
      else match parseTzTs bytes with
        | some t => .ok (.TimeStamp (formatTzTs t))
        | none => .err .invalidTimestamp
    | _ => .ok (.Bytes bytes)

/-- CdcEventConverter::from_tuple_data_slice: one cell per column schema,
indexing into the tuple data (an out-of-range index panics in Rust). -/
def fromTupleDataSlice (columnSchemas : List ColumnSchema) (tupleData : List TupleData) :
    RResult CdcEventConversionError TableRow := do
  let values ← goSlice columnSchemas tupleData 0
  return ⟨values⟩
where
  goSlice : List ColumnSchema → List TupleData → Nat →
      RResult CdcEventConversionError (List Cell)
    | [], _, _ => .ok []
    | c :: cs, td, i =>
      match td[i]? with
      | none => .panic
      | some v => do
        let cell ← fromTupleData c.typ v
        let rest ← goSlice cs td (i + 1)
        return cell :: rest

/-- CdcEventConverter::from_insert_body. -/
def fromInsertBody (tableId : TableId) (columnSchemas : List ColumnSchema)
    (insertBody : InsertBody) : RResult CdcEventConversionError CdcEvent := do
  let row ← fromTupleDataSlice columnSchemas insertBody.newTuple
  return .insert (tableId, row)

/-- CdcEventConverter::from_update_body. -/
def fromUpdateBody (tableId : TableId) (columnSchemas : List ColumnSchema)
    (updateBody : UpdateBody) : RResult CdcEventConversionError CdcEvent := do
  let keyRow ←
    match updateBody.keyTuple with
    | some t => (fromTupleDataSlice columnSchemas t).bind fun r => .ok (some r)
    | none => .ok none
  let oldRow ←
    match updateBody.oldTuple with
    | some t => (fromTupleDataSlice columnSchemas t).bind fun r => .ok (some r)
    | none => .ok none
  let row ← fromTupleDataSlice columnSchemas updateBody.newTuple
  return .update tableId oldRow keyRow row

/-- CdcEventConverter::from_delete_body: the key tuple, or else the old
tuple, or else a MissingTupleInDeleteBody error. -/
def fromDeleteBody (tableId : TableId) (columnSchemas : List ColumnSchema)
    (deleteBody : DeleteBody) : RResult CdcEventConversionError CdcEvent :=
  match deleteBody.keyTuple.or deleteBody.oldTuple with
  | none => .err .missingTupleInDeleteBody
  | some tuple => do
    let row ← fromTupleDataSlice columnSchemas tuple
    return .delete (tableId, row)

/-- Lookup in the table-schema map (HashMap<TableId, TableSchema> modelled
as an association list). -/
def lookupSchema (m : List (TableId × TableSchema)) (tid : TableId) : Option TableSchema :=
  (m.find? fun p => p.1 = tid).map Prod.snd

/-- CdcEventConverter::try_from on a replication message and the schema
map. -/
def cdcTryFrom (value : ReplicationMessage) (tableSchemas : List (TableId × TableSchema)) :
    RResult CdcEventConversionError CdcEvent :=
  match value with
  | .xLogData xlogData =>
    match xlogData with
    | .begin beginBody => .ok (.begin beginBody)
    | .commit commitBody => .ok (.commit commitBody)
    | .origin _ => .err .messageNotSupported
    | .relation relationBody => .ok (.relation relationBody)
    | .typeMessage typeBody => .ok (.typeEvent typeBody)
    | .insert insertBody =>
      match lookupSchema tableSchemas insertBody.relId with
      | none => .err (.missingSchema insertBody.relId)
      | some ts => fromInsertBody insertBody.relId ts.columnSchemas insertBody
    | .update updateBody =>
      match lookupSchema tableSchemas updateBody.relId with
      | none => .err (.missingSchema updateBody.relId)
      | some ts => fromUpdateBody updateBody.relId ts.columnSchemas updateBody
    | .delete deleteBody =>
      match lookupSchema tableSchemas deleteBody.relId with
      | none => .err (.missingSchema deleteBody.relId)
      | some ts => fromDeleteBody deleteBody.relId ts.columnSchemas deleteBody
    | .truncate _ => .err .messageNotSupported
    | .other => .err .unknownReplicationMessage
  | .primaryKeepAlive reply => .ok (.keepAliveRequested (reply = 1))
  | .other => .err .unknownReplicationMessage

/-- Batch-boundary predicate as the claim words it: exactly Commit and
KeepAliveRequested mark a boundary; Begin, Insert, Update, Delete,
Relation and Type never do. -/
def isBoundaryClaim : CdcEvent → Bool
  | .begin _ => false
  | .commit _ => true
  | .insert _ => false
  | .update _ _ _ _ => false
  | .delete _ => false
  | .relation _ => false
  | .typeEvent _ => false
  | .keepAliveRequested _ => true

/-- The column types the converter maps to Cell::String. -/
def isCharLike (t : PgType) : Bool :=
  match t with
  | .char | .bpchar | .varchar | .name | .text => true
  | _ => false

/-- The column types handled by a dedicated arm of from_tuple_data; every
other type falls through to Cell::Bytes. -/
def hasDedicatedCdcArm (t : PgType) : Bool :=
  match t with
  | .bool | .char | .bpchar | .varchar | .name | .text
  | .int2 | .int4 | .int8 | .timestamp | .timestamptz => true
  | _ => false

/-! ## Numeric decoder (conversions/numeric.rs, rust_decimal path)

The source decodes binary NUMERIC on the fixed 128-bit decimal path by
calling into rust_decimal (version 1.36, as pinned by the crate). A
rust_decimal Decimal is a 96-bit unsigned mantissa, a scale capped at 28
and a sign flag; the operations used by checked_from_postgres are
modelled below, operand shapes as they occur there (all multiplications
have scale-zero operands, all additions have operands of the same sign,
the divisions have a small scale-zero dividend and a power-of-ten
divisor). -/

/-- A rust_decimal Decimal: mantissa (meant to stay below 2^96), scale
(meant to stay at most 28), sign flag. -/
structure Decimal where
  mantissa : Nat
  scale : Nat
  negative : Bool
deriving DecidableEq, Repr

/-- The 96-bit mantissa bound of rust_decimal. -/
def decimalCap : Nat := 2 ^ 96

/-- Division of a mantissa by 10^d as the rescale loop of rust_decimal
performs it: truncate, then add one when the leading discarded digit is
at least five (the loop divides by ten repeatedly and rounds by the last
remainder; an early exit on a zero mantissa discards the remainder, which
coincides with this formula). -/
def roundDiv (m d : Nat) : Nat :=
  if d = 0 then m
  else m / 10 ^ d + (if 5 ≤ m / 10 ^ (d - 1) % 10 then 1 else 0)

/-- Scale-up loop of rescale_internal: multiply by ten while the mantissa
stays below 2^96, at most `d` times; returns the mantissa and the number
of steps taken. -/
def upSteps : Nat → Nat → Nat × Nat
  | m, 0 => (m, 0)
  | m, d + 1 =>
    if m * 10 < decimalCap then
      let p := upSteps (m * 10) d
      (p.1, p.2 + 1)
    else (m, 0)

/-- rescale_internal of rust_decimal: nothing at equal scales; a zero
mantissa just takes the capped target scale; scaling down divides with
rounding; scaling up multiplies by ten as far as the 96-bit mantissa
allows, possibly stopping short of the target scale. -/
def rescaleInternal (m s t : Nat) : Nat × Nat :=
  if s = t then (m, s)
  else if m = 0 then (0, min t 28)
  else if t < s then (roundDiv m (s - t), t)
  else
    let p := upSteps m (t - s)
    (p.1, s + p.2)

/-- Product reduction of rust_decimal checked_mul: keep the product when
it fits (96 bits, scale at most 28); otherwise divide by ten (with
rounding, applied here per step; the call sites under verification all
multiply scale-zero operands, where no reduction step can occur) until it
fits or the scale hits zero, which is overflow. -/
def reduceProduct : Nat → Nat → Bool → Option Decimal
  | m, 0, ng => if m < decimalCap then some ⟨m, 0, ng⟩ else none
  | m, s + 1, ng =>
    if m < decimalCap ∧ s + 1 ≤ 28 then some ⟨m, s + 1, ng⟩
    else reduceProduct (roundDiv m 1) s ng

/-- rust_decimal checked_mul. -/
def checkedMul (a b : Decimal) : Option Decimal :=
  reduceProduct (a.mantissa * b.mantissa) (a.scale + b.scale) (xor a.negative b.negative)

/-- Mantissa sum at a common scale: reduce the scale once with rounding
when the sum leaves 96 bits, overflow when that is not possible. -/
def addFinish (m s : Nat) (ng : Bool) : Option Decimal :=
  if m < decimalCap then some ⟨m, s, ng⟩
  else if s = 0 then none
  else some ⟨roundDiv m 1, s - 1, ng⟩

/-- rust_decimal checked_add for operands of the same sign (the only
shape reached from checked_from_postgres, whose accumulands are all
non-negative): align the scales, scaling the lower-scale mantissa up as
far as 96 bits allow and rounding the other down for the rest, then add.
The differing-sign (subtraction) path is not exercised and not
modelled. -/
def checkedAdd (a b : Decimal) : Option Decimal :=
  if a.negative = b.negative then
    if a.scale = b.scale then addFinish (a.mantissa + b.mantissa) a.scale a.negative
    else if a.scale < b.scale then
      let diff := b.scale - a.scale
      let p := upSteps a.mantissa diff
      if p.2 = diff then addFinish (p.1 + b.mantissa) b.scale a.negative
      else addFinish (p.1 + roundDiv b.mantissa (diff - p.2)) (a.scale + p.2) a.negative
    else
      let diff := a.scale - b.scale
      let p := upSteps b.mantissa diff
      if p.2 = diff then addFinish (a.mantissa + p.1) a.scale a.negative
      else addFinish (roundDiv a.mantissa (diff - p.2) + p.1) (b.scale + p.2) a.negative
  else none

/-- Base-ten trailing zeros of a u16 digit group. -/
def tzTenU16 (d : Nat) : Nat :=
  if d % 10 ≠ 0 then 0
  else if d % 100 ≠ 0 then 1
  else if d % 1000 ≠ 0 then 2
  else if d % 10000 ≠ 0 then 3
  else 4

/-- rust_decimal division as used for a fractional digit group: the exact
quotient digit/10^fp, whose long division stops when the remainder
vanishes, leaving the digit with its base-ten trailing zeros stripped at
the correspondingly reduced scale. -/
def divDigitPow (digit fp : Nat) : Decimal :=
  if digit = 0 then ⟨0, 0, false⟩
  else
    let z := min (tzTenU16 digit) fp
    ⟨digit / 10 ^ z, fp - z, false⟩

/-- Number of digit groups drained as the integer part by
checked_from_postgres (`last` in the source). -/
def cfpLastI (w : Int) (len : Nat) : Nat :=
  if 0 < w + 1 then (if (len : Int) < w + 1 then len else (w + 1).toNat) else 0

/-- Zero-digit-group padding factor exponent of the integer part
(`start_integers` in the source). -/
def cfpStartIntegers (w : Int) (len : Nat) : Nat :=
  if 0 < w + 1 ∧ (len : Int) < w + 1 then (w + 1 - len).toNat else 0

/-- Leading implicit zero digit groups of the fractional part
(`start_fractionals` in the source; the i16 negation that overflows at
weight -32768 is kept out by the hypotheses of the theorems). -/
def cfpStartF (w : Int) : Nat := if w < 0 then (-w).toNat - 1 else 0

/-- Integer-part accumulation loop: multiply by 10^4 and add each digit
group, through the checked operations. -/
def intFold : Decimal → List Nat → Option Decimal
  | res, [] => some res
  | res, d :: ds =>
    match (checkedMul res ⟨10000, 0, false⟩).bind
        fun r => checkedAdd r ⟨d, 0, false⟩ with
    | none => none
    | some r => intFold r ds

/-- Integer part of checked_from_postgres: fold the drained digit groups,
then multiply by the padding power of ten; constructing that power as a
Decimal asserts the 96-bit bound, so a padding exponent beyond 28 panics
(Decimal::from_i128_with_scale). -/
def intPhase (w : Int) (digits : List Nat) : RResult Unit Decimal :=
  if 0 < w + 1 then
    match intFold ⟨0, 0, false⟩ (digits.take (cfpLastI w digits.length)) with
    | none => .err ()
    | some r =>
      let si := cfpStartIntegers w digits.length
      if 28 < 4 * si then .panic
      else
        match checkedMul r ⟨10 ^ (4 * si), 0, false⟩ with
        | none => .err ()
        | some r2 => .ok r2
  else .ok ⟨0, 0, false⟩

/-- Fractional-part loop of checked_from_postgres: for the digit group at
index `i`, the power 4*(i+1+start_fractionals) is formed by a u32
checked multiplication (overflow becomes the overflow error); groups at
power up to 28 are divided and added, the group at power 32 contributes
one unit at scale 28 when at least 5000, all later groups are skipped. -/
def fracFold (startF : Nat) : Decimal → Nat → List Nat → RResult Unit Decimal
  | res, _, [] => .ok res
  | res, i, d :: ds =>
    let x := i + 1 + startF
    if 2 ^ 32 ≤ 4 * x then .err ()
    else
      let fp := 4 * x
      if fp ≤ 28 then
        match checkedAdd res (divDigitPow d fp) with
        | none => .err ()
        | some r => fracFold startF r (i + 1) ds
      else if fp = 28 + 4 then
        if 5000 ≤ d then
          match checkedAdd res ⟨1, 28, false⟩ with
          | none => .err ()
          | some r => fracFold startF r (i + 1) ds
        else fracFold startF res (i + 1) ds
      else fracFold startF res (i + 1) ds

/-- Fractional part of checked_from_postgres, over the digit groups left
after the integer drain. -/
def fracPhase (w : Int) (digits : List Nat) (res0 : Decimal) : RResult Unit Decimal :=
  if 0 < (digits.length : Int) + (-w) - 1 then
    fracFold (cfpStartF w) res0 0 (digits.drop (cfpLastI w digits.length))
  else .ok res0

/-- Final step of checked_from_postgres: set the sign flag, then rescale
to the declared scale capped at 28. -/
def cfpFinish (neg : Bool) (scale : Nat) (res : Decimal) : Decimal :=
  let p := rescaleInternal res.mantissa res.scale (min scale 28)
  ⟨p.1, p.2, neg⟩

/-- checked_from_postgres of conversions/numeric.rs: integer part, then
fractional part, then sign and rescale. The overflow error stands for the
source returning None (surfaced by the caller as InvalidDecimalValue). -/
def checkedFromPostgres (neg : Bool) (w : Int) (scale : Nat) (digits : List Nat) :
    RResult Unit Decimal :=
  (intPhase w digits).bind fun res0 =>
  (fracPhase w digits res0).bind fun res1 =>
  .ok (cfpFinish neg scale res1)

/-- PgNumeric of conversions/numeric.rs on the rust_decimal feature. -/
inductive PgNumeric where
  | NaN : PgNumeric
  | PositiveInf : PgNumeric
  | NegativeInf : PgNumeric
  | Value : Decimal → PgNumeric
deriving DecidableEq, Repr

/-- Errors surfaced by PgNumeric::from_sql: a reader error on a short
buffer, the invalid-sign io error, or ParseDecimalError::InvalidDecimalValue. -/
inductive NumericDecodeError where
  | ioError
  | invalidSign : Nat → NumericDecodeError
  | invalidDecimalValue
deriving DecidableEq, Repr

/-- Big-endian u16 read. -/
def readU16 : List Nat → Option (Nat × List Nat)
  | b1 :: b2 :: r => some (b1 * 256 + b2, r)
  | _ => none

/-- Value of a u16 as an i16. -/
def toI16 (v : Nat) : Int := if v < 32768 then (v : Int) else (v : Int) - 65536

/-- Read `k` big-endian u16 values. -/
def readNU16 : Nat → List Nat → Option (List Nat × List Nat)
  | 0, r => some ([], r)
  | k + 1, r =>
    match readU16 r with
    | none => none
    | some (v, r1) =>
      match readNU16 k r1 with
      | none => none
      | some (vs, r2) => some (v :: vs, r2)

/-- PgNumeric::from_sql on the rust_decimal path: read header fields,
dispatch on the sign code (the three special codes return before the
scale and digits are even read), read the digit groups, and run
checked_from_postgres. -/
def pgNumericFromSql (raw : List Nat) : RResult NumericDecodeError PgNumeric :=
  match readU16 raw with
  | none => .err .ioError
  | some (nDigits, r1) =>
    match readU16 r1 with
    | none => .err .ioError
    | some (w16, r2) =>
      match readU16 r2 with
      | none => .err .ioError
      | some (sign, r3) =>
        if sign = 0xC000 then .ok .NaN
        else if sign = 0xD000 then .ok .PositiveInf
        else if sign = 0xF000 then .ok .NegativeInf
        else if sign = 0x4000 ∨ sign = 0x0000 then
          match readU16 r3 with
          | none => .err .ioError
          | some (scale, r4) =>
            match readNU16 nDigits r4 with
            | none => .err .ioError
            | some (digits, _) =>
              match checkedFromPostgres (sign = 0x4000) (toI16 w16) scale digits with
              | .panic => .panic
              | .err _ => .err .invalidDecimalValue
              | .ok d => .ok (.Value d)
        else .err (.invalidSign sign)

/-- Big-endian u16 encoding. -/
def u16be (v : Nat) : List Nat := [v / 256 % 256, v % 256]

/-- Big-endian encoding of a list of u16 digit groups. -/
def encU16List (ds : List Nat) : List Nat := (ds.map u16be).flatten

/-! ## Cell conversion matrix (conversions/mod.rs)

conversions/mod.rs defines its own richer Cell enum with derive_more
TryInto conversions and three trait_gen-generated conversion families per
scalar type T (Option T, Vec (Option T), Option (Vec (Option T))). The
scalar payload types that the conversions only move around are modelled as
opaque carriers. -/

/-- Opaque carrier for an f32 payload (bit pattern). -/
structure F32Bits where
  bits : Nat
deriving DecidableEq, Repr

/-- Opaque carrier for an f64 payload (bit pattern). -/
structure F64Bits where
  bits : Nat
deriving DecidableEq, Repr

/-- Opaque carrier for a chrono NaiveDate payload. -/
structure RNaiveDate where
  v : Int
deriving DecidableEq, Repr

/-- Opaque carrier for a chrono NaiveTime payload. -/
structure RNaiveTime where
  v : Nat
deriving DecidableEq, Repr

/-- Opaque carrier for a chrono NaiveDateTime payload. -/
structure RNaiveDateTime where
  v : Int
deriving DecidableEq, Repr

/-- Opaque carrier for a chrono DateTime in UTC. -/
structure RDateTimeUtc where
  v : Int
deriving DecidableEq, Repr

/-- Opaque carrier for a Uuid payload (sixteen bytes). -/
structure RUuid where
  v : List Nat
deriving DecidableEq, Repr

/-- Opaque carrier for a serde_json Value payload. -/
structure RJsonValue where
  v : Nat
deriving DecidableEq, Repr

namespace Conversions

/-- ArrayCell of conversions/mod.rs: one vector variant per scalar type of
the matrix, each holding optional elements, or Null. -/
inductive ArrayCell where
  | Null : ArrayCell
  | Bool : List (Option Bool) → ArrayCell
  | String : List (Option String) → ArrayCell
  | I16 : List (Option Int) → ArrayCell
  | I32 : List (Option Int) → ArrayCell
  | U32 : List (Option Nat) → ArrayCell
  | I64 : List (Option Int) → ArrayCell
  | F32 : List (Option F32Bits) → ArrayCell
  | F64 : List (Option F64Bits) → ArrayCell
  | Numeric : List (Option PgNumeric) → ArrayCell
  | Date : List (Option RNaiveDate) → ArrayCell
  | Time : List (Option RNaiveTime) → ArrayCell
  | TimeStamp : List (Option RNaiveDateTime) → ArrayCell
  | TimeStampTz : List (Option RDateTimeUtc) → ArrayCell
  | Uuid : List (Option RUuid) → ArrayCell
  | Json : List (Option RJsonValue) → ArrayCell
  | Bytes : List (Option (List Nat)) → ArrayCell
deriving DecidableEq, Repr

/-- Cell of conversions/mod.rs: the tagged value with every scalar variant
of the matrix plus Null and Array. -/
inductive Cell where
  | Null : Cell
  | Bool : Bool → Cell
  | String : String → Cell
  | I16 : Int → Cell
  | I32 : Int → Cell
  | U32 : Nat → Cell
  | I64 : Int → Cell
  | F32 : F32Bits → Cell
  | F64 : F64Bits → Cell
  | Numeric : PgNumeric → Cell
  | Date : RNaiveDate → Cell
  | Time : RNaiveTime → Cell
  | TimeStamp : RNaiveDateTime → Cell
  | TimeStampTz : RDateTimeUtc → Cell
  | Uuid : RUuid → Cell
  | Json : RJsonValue → Cell
  | Bytes : List Nat → Cell
  | Array : ArrayCell → Cell
deriving DecidableEq, Repr

/-- The sixteen scalar types of the trait_gen conversion matrix. -/
inductive ScalarT where
  | bool | string | i16 | i32 | u32 | i64 | f32 | f64
  | numeric | date | time | timestamp | timestamptz | uuid | json | bytes
deriving DecidableEq, Repr

/-- The Lean carrier of each matrix scalar type. -/
def ScalarT.denote : ScalarT → Type
  | .bool => Bool
  | .string => String
  | .i16 => Int
  | .i32 => Int
  | .u32 => Nat
  | .i64 => Int
  | .f32 => F32Bits
  | .f64 => F64Bits
  | .numeric => PgNumeric
  | .date => RNaiveDate
  | .time => RNaiveTime
  | .timestamp => RNaiveDateTime
  | .timestamptz => RDateTimeUtc
  | .uuid => RUuid
  | .json => RJsonValue
  | .bytes => List Nat

/-- The derive_more TryInto conversion Cell to T: the payload when the
variant matches T, an error (none) otherwise. -/
def ScalarT.extract : (t : ScalarT) → Cell → Option t.denote
  | .bool, .Bool v => some v
  | .string, .String v => some v
  | .i16, .I16 v => some v
  | .i32, .I32 v => some v
  | .u32, .U32 v => some v
  | .i64, .I64 v => some v
  | .f32, .F32 v => some v
  | .f64, .F64 v => some v
  | .numeric, .Numeric v => some v
  | .date, .Date v => some v
  | .time, .Time v => some v
  | .timestamp, .TimeStamp v => some v
  | .timestamptz, .TimeStampTz v => some v
  | .uuid, .Uuid v => some v
  | .json, .Json v => some v
  | .bytes, .Bytes v => some v
  | _, _ => none

/-- The derive_more TryInto conversion ArrayCell to Vec (Option T): the
vector when the variant matches T (Null is ignored by the derive and
fails), an error (none) otherwise. -/
def ScalarT.arrExtract : (t : ScalarT) → ArrayCell → Option (List (Option t.denote))
  | .bool, .Bool v => some v
  | .string, .String v => some v
  | .i16, .I16 v => some v
  | .i32, .I32 v => some v
  | .u32, .U32 v => some v
  | .i64, .I64 v => some v
  | .f32, .F32 v => some v
  | .f64, .F64 v => some v
  | .numeric, .Numeric v => some v
  | .date, .Date v => some v
  | .time, .Time v => some v
  | .timestamp, .TimeStamp v => some v
  | .timestamptz, .TimeStampTz v => some v
  | .uuid, .Uuid v => some v
  | .json, .Json v => some v
  | .bytes, .Bytes v => some v
  | _, _ => none

/-- The trait_gen impl TryFrom Cell for Option T: Null maps to none,
everything else delegates to the plain conversion. -/
def tryIntoOption (t : ScalarT) : Cell → Option (Option t.denote)
  | .Null => some none
  | c => (t.extract c).map some

/-- The trait_gen impl TryFrom Cell for Vec (Option T): only an Array
delegates to the ArrayCell conversion; every other variant errors. -/
def tryIntoVecOption (t : ScalarT) : Cell → Option (List (Option t.denote))
  | .Array ac => t.arrExtract ac
  | _ => none

/-- The trait_gen impl TryFrom Cell for Option (Vec (Option T)): Null and
Array(Null) map to none, an Array delegates, everything else errors. -/
def tryIntoOptionVecOption (t : ScalarT) : Cell → Option (Option (List (Option t.denote)))
  | .Null => some none
  | .Array .Null => some none
  | .Array ac => (t.arrExtract ac).map some
  | _ => none

/-- The matrix scalar type a Cell variant carries, if any (Null and Array
carry none). -/
def cellTag : Cell → Option ScalarT
  | .Null => none
  | .Bool _ => some .bool
  | .String _ => some .string
  | .I16 _ => some .i16
  | .I32 _ => some .i32
  | .U32 _ => some .u32
  | .I64 _ => some .i64
  | .F32 _ => some .f32
  | .F64 _ => some .f64
  | .Numeric _ => some .numeric
  | .Date _ => some .date
  | .Time _ => some .time
  | .TimeStamp _ => some .timestamp
  | .TimeStampTz _ => some .timestamptz
  | .Uuid _ => some .uuid
  | .Json _ => some .json
  | .Bytes _ => some .bytes
  | .Array _ => none

end Conversions

/-! ## Table-row decoder (conversions/table_row.rs, binary COPY path)

A BinaryCopyOutRow is modelled as the per-column wire values: none for a
SQL NULL, some bytes otherwise. The tokio_postgres FromSql decoders the
source requests are modelled below; a driver error (null for a
non-nullable Rust type, a wrong buffer, a type the Rust type does not
accept, a bad column index) is an Option none, which the source maps to
Cell::Null for nullable columns and unwraps (panics) otherwise. -/

/-- TableRowConversionError of conversions/table_row.rs (no arm of
get_cell_value actually produces one; failures panic through the driver
unwrap instead). -/
inductive TableRowConversionError where
  | unsupportedType
  | noTimestampNanos
deriving DecidableEq, Repr

/-- True when a RResult is a typed error return. -/
def RResult.isErr {ε α : Type} : RResult ε α → Bool
  | .err _ => true
  | _ => false

/-- Big-endian value of a byte list. -/
def beBytesVal (b : List Nat) : Nat := b.foldl (fun acc x => acc * 256 + x) 0

/-- Two's-complement reading of a `bits`-wide value. -/
def toSigned (bits v : Nat) : Int :=
  if v < 2 ^ (bits - 1) then (v : Int) else (v : Int) - 2 ^ bits

/-- tokio_postgres FromSql for a fixed-width big-endian signed integer:
null or a wrong buffer length is a driver error. -/
def tryGetIntWidth (width : Nat) : Option (List Nat) → Option Int
  | none => none
  | some b => if b.length = width then some (toSigned (8 * width) (beBytesVal b)) else none

/-- postgres_protocol bool_from_sql: exactly one byte, nonzero is true. -/
def tryGetBool : Option (List Nat) → Option Bool
  | some [x] => some (decide (x ≠ 0))
  | _ => none

/-- FromSql for &str: the bytes must be valid UTF-8. -/
def tryGetStr : Option (List Nat) → Option (List Nat)
  | some b => if utf8Valid b then some b else none
  | none => none

/-- Civil date from days since 1970-01-01 (the standard era-based
algorithm, floor division for the era). -/
def civilFromDays (z0 : Int) : Int × Nat × Nat :=
  let z := z0 + 719468
  let era := Int.fdiv z 146097
  let doe := (z - era * 146097).toNat
  let yoe := (doe - doe / 1460 + doe / 36524 - doe / 146096) / 365
  let doy := doe - (365 * yoe + yoe / 4 - yoe / 100)
  let mp := (5 * doy + 2) / 153
  let d := doy - (153 * mp + 2) / 5 + 1
  let m := if mp < 10 then mp + 3 else mp - 9
  let y := (yoe : Int) + era * 400
  (if m ≤ 2 then y + 1 else y, m, d)

/-- Naive timestamp from Postgres binary TIMESTAMP: microseconds since
2000-01-01T00:00:00 (10957 days after the Unix epoch). -/
def naiveTsFromMicros (micros : Int) : NaiveTs :=
  let days := Int.fdiv micros 86400000000
  let rem := (micros - days * 86400000000).toNat
  let c := civilFromDays (days + 10957)
  let secs := rem / 1000000
  ⟨c.1, c.2.1, c.2.2, secs / 3600, secs % 3600 / 60, secs % 60, rem % 1000000 * 1000⟩

/-- FromSql for NaiveDateTime: eight bytes of microseconds, with the
chrono year-range check of the checked base-plus-duration addition. -/
def tryGetTimestamp (v : Option (List Nat)) : Option NaiveTs :=
  (tryGetIntWidth 8 v).bind fun m =>
    let t := naiveTsFromMicros m
    if -262144 ≤ t.year ∧ t.year ≤ 262143 then some t else none

/-- FromSql for Uuid: exactly sixteen bytes. -/
def tryGetUuid : Option (List Nat) → Option (List Nat)
  | some b => if b.length = 16 then some b else none
  | none => none

/-- Take exactly `k` bytes. -/
def takeBytes (k : Nat) (b : List Nat) : Option (List Nat × List Nat) :=
  if k ≤ b.length then some (b.take k, b.drop k) else none

/-- Big-endian read of a `k`-byte unsigned value. -/
def readBEIntBytes (k : Nat) (b : List Nat) : Option (Nat × List Nat) :=
  (takeBytes k b).map fun p => (beBytesVal p.1, p.2)

/-- Length-prefixed UUID elements of a binary Postgres array; a null
element (length 0xFFFFFFFF) or a non-sixteen-byte element is a driver
error for Vec of Uuid. -/
def parseUuidElems : Nat → List Nat → Option (List (List Nat))
  | 0, _ => some []
  | n + 1, b =>
    match readBEIntBytes 4 b with
    | none => none
    | some (len, r) =>
      if len = 4294967295 then none
      else if len = 16 then
        match takeBytes 16 r with
        | none => none
        | some (u, r2) =>
          match parseUuidElems n r2 with
          | none => none
          | some us => some (u :: us)
      else none

/-- postgres_protocol array_from_sql specialised to Vec of Uuid: header
(dimension count, flags, element oid), at most one dimension, then the
length-prefixed elements. -/
def uuidVecFromSql (b : List Nat) : Option (List (List Nat)) :=
  match readBEIntBytes 4 b with
  | none => none
  | some (ndim, r1) =>
    match readBEIntBytes 4 r1 with
    | none => none
    | some (_, r2) =>
      match readBEIntBytes 4 r2 with
      | none => none
      | some (_, r3) =>
        if ndim = 0 then some []
        else if ndim = 1 then
          match readBEIntBytes 4 r3 with
          | none => none
          | some (len, r4) =>
            match readBEIntBytes 4 r4 with
            | none => none
            | some (_, r5) => parseUuidElems len r5
        else none

/-- FromSql for Vec of Uuid. -/
def tryGetUuidVec : Option (List Nat) → Option (List (List Nat))
  | some b => uuidVecFromSql b
  | none => none

/-- The FromSql impl for &str does not accept the single-byte CHAR type
(oid 18), only the other character types. -/
def strAccepts : PgType → Bool
  | .bpchar | .varchar | .name | .text => true
  | _ => false

/-- The column types with a dedicated arm in get_cell_value; all others
take the VecWrapper fallback arm. -/
def hasDedicatedCopyArm : PgType → Bool
  | .bool | .char | .bpchar | .varchar | .name | .text
  | .int2 | .int4 | .int8 | .timestamp | .timestamptz | .uuid | .uuidArray => true
  | _ => false

/-- The Ok value of try_get in a dedicated arm of get_cell_value, already
wrapped in the Cell the arm builds. -/
def colDecode (typ : PgType) (v : Option (List Nat)) : Option Cell :=
  match typ with
  | .bool => (tryGetBool v).map Cell.Bool
  | .char | .bpchar | .varchar | .name | .text =>
    if strAccepts typ then (tryGetStr v).map Cell.String else none
  | .int2 => (tryGetIntWidth 2 v).map Cell.I16
  | .int4 => (tryGetIntWidth 4 v).map Cell.I32
  | .int8 => (tryGetIntWidth 8 v).map Cell.I64
  | .timestamp => (tryGetTimestamp v).map fun t => Cell.TimeStamp (formatNaiveTs t)
  | .timestamptz => (tryGetTimestamp v).map fun t => Cell.TimeStamp (formatTzTs ⟨t, 0⟩)
  | .uuid => (tryGetUuid v).map Cell.Uuid
  | .uuidArray => (tryGetUuidVec v).map fun us => Cell.Array (us.map Cell.Uuid)
  | _ => none

/-- VecWrapper::from_sql_nullable: a null becomes the empty buffer, bytes
pass through; it never fails. -/
def vecWrapperBytes : Option (List Nat) → List Nat
  | none => []
  | some b => b

/-- Ok-or-Null wrapping of a nullable column (the Err arm of every
nullable branch returns Cell::Null). -/
def nullableCell : Option Cell → Cell
  | some c => c
  | none => .Null

/-- get-with-unwrap of a non-nullable column: a driver error panics. -/
def requiredCell : Option Cell → RResult TableRowConversionError Cell
  | some c => .ok c
  | none => .panic

/-- TableRowConverter::get_cell_value: each dedicated arm runs its FromSql
decode, Null-ing errors for nullable columns and unwrapping otherwise;
every other type takes the VecWrapper fallback, which yields Null for an
empty buffer under a nullable column and raw Bytes otherwise. The
per-arm nullable dispatch of the source is factored through colDecode;
each arm of colDecode is the payload of the corresponding source arm. -/
def getCellValue (row : List (Option (List Nat))) (cs : ColumnSchema) (i : Nat) :
    RResult TableRowConversionError Cell :=
  if hasDedicatedCopyArm cs.typ then
    let res : Option Cell :=
      match row[i]? with
      | none => none
      | some v => colDecode cs.typ v
    if cs.nullable then .ok (nullableCell res) else requiredCell res
  else
    if cs.nullable then
      match row[i]? with
      | none => .ok .Null
      | some v =>
        let bytes := vecWrapperBytes v
        .ok (if bytes.isEmpty then .Null else .Bytes bytes)
    else
      match row[i]? with
      | none => .panic
      | some v => .ok (.Bytes (vecWrapperBytes v))

/-- TableRowConverter::try_from: one cell per column schema. -/
def tableRowTryFrom (row : List (Option (List Nat))) (columnSchemas : List ColumnSchema) :
    RResult TableRowConversionError TableRow := do
  let values ← goCells columnSchemas 0
  return ⟨values⟩
where
  goCells : List ColumnSchema → Nat → RResult TableRowConversionError (List Cell)
    | [], _ => .ok []
    | c :: cs, i => do
      let cell ← getCellValue row c i
      let rest ← goCells cs (i + 1)
      return cell :: rest

/-! ## Pipeline orchestrator (pipeline/batching/data_pipeline.rs)

BatchDataPipeline drives the source and sink ports. The ports and the
batch-timeout stream live outside the verified sources, so they enter the
model as data: the catalog in iteration order, the resumption state the
sink reports, and the batched streams (each row or event a Result, as the
pipeline receives them). A run is modelled as the list of port operations
the orchestrator issues plus a success flag; sink calls are modelled as
non-failing (a sink error would only truncate the trace at that call).
The CDC start position models the u64 increment of the resumed LSN. -/

/-- PipelineAction of pipeline/mod.rs (re-exported; the enum itself is
only referenced by data_pipeline.rs). -/
inductive PipelineAction where
  | tableCopiesOnly
  | cdcOnly
  | both
deriving DecidableEq, Repr

/-- One port operation issued by the orchestrator, in program order. -/
inductive PipelineOp where
  | writeTableSchemas : List TableSchema → PipelineOp
  | truncateTable : TableId → PipelineOp
  | writeTableRows : List TableRow → TableId → PipelineOp
  | tableCopied : TableId → PipelineOp
  | commitTransaction : PipelineOp
  | openCdc : Nat → PipelineOp
  | writeCdcEvents : List CdcEvent → PipelineOp

/-- True exactly on a write_table_schemas operation. -/
def PipelineOp.isWriteTableSchemas : PipelineOp → Bool
  | .writeTableSchemas _ => true
  | _ => false

/-- True on the three per-table copy operations for the given table. -/
def PipelineOp.touchesTable (tid : TableId) : PipelineOp → Bool
  | .truncateTable t => t = tid
  | .writeTableRows _ t => t = tid
  | .tableCopied t => t = tid
  | _ => false

/-- The environment of one run: the source catalog (HashMap iteration
order), the resumption state the sink reported, and the batched copy and
CDC streams. -/
structure PipelineModel where
  tableSchemasCatalog : List TableSchema
  copiedTables : List TableId
  lastLsn : Nat
  tableBatches : TableId → List (List (Except Unit TableRow))
  cdcBatches : List (List (Except Unit CdcEvent))

/-- BatchDataPipeline::copy_table_schemas: write the catalog to the sink
unless it is empty. -/
def copyTableSchemasOps (m : PipelineModel) : List PipelineOp :=
  if m.tableSchemasCatalog.isEmpty then [] else [.writeTableSchemas m.tableSchemasCatalog]

/-- Unwrap a batch of results; the first error aborts (the pipeline maps
it into SourceError and fails the run). -/
def collectOk {α : Type} : List (Except Unit α) → Option (List α)
  | [] => some []
  | .error _ :: _ => none
  | .ok r :: rest => (collectOk rest).map (r :: ·)

/-- The Ok payloads of a batch. -/
def okFilter {α : Type} (b : List (Except Unit α)) : List α :=
  b.filterMap fun e => match e with | .ok r => some r | .error _ => none

/-- The while-let loop over one batched table-copy stream: unwrap each
batch and write it; an error row fails the run. -/
def processBatches (tid : TableId) : List (List (Except Unit TableRow)) →
    List PipelineOp × Bool
  | [] => ([], true)
  | batch :: rest =>
    match collectOk batch with
    | none => ([], false)
    | some rows =>
      let p := processBatches tid rest
      (.writeTableRows rows tid :: p.1, p.2)

/-- BatchDataPipeline::copy_tables: for each catalog table not already
copied, truncate, write the batches, mark copied; then commit the
snapshot transaction. -/
def copyTablesOps (m : PipelineModel) : List PipelineOp × Bool :=
  go m.tableSchemasCatalog
where
  go : List TableSchema → List PipelineOp × Bool
    | [] => ([.commitTransaction], true)
    | ts :: rest =>
      if ts.tableId ∈ m.copiedTables then go rest
      else
        let p := processBatches ts.tableId (m.tableBatches ts.tableId)
        if p.2 then
          let q := go rest
          (.truncateTable ts.tableId :: (p.1 ++ (.tableCopied ts.tableId :: q.1)), q.2)
        else (.truncateTable ts.tableId :: p.1, false)

/-- The while-let loop over the batched CDC stream: unwrap each batch and
write it; an error event fails the run. -/
def processCdcBatches : List (List (Except Unit CdcEvent)) → List PipelineOp × Bool
  | [] => ([], true)
  | batch :: rest =>
    match collectOk batch with
    | none => ([], false)
    | some evs =>
      let p := processCdcBatches rest
      (.writeCdcEvents evs :: p.1, p.2)

/-- BatchDataPipeline::copy_cdc_events: open the CDC stream one past the
resumed LSN, then write each batch. -/
def copyCdcEventsOps (m : PipelineModel) : List PipelineOp × Bool :=
  let p := processCdcBatches m.cdcBatches
  (.openCdc (m.lastLsn + 1) :: p.1, p.2)

/-- BatchDataPipeline::start: fetch the resumption state (carried by the
model), then run the phases the action selects, short-circuiting on
failure. -/
def pipelineStart (action : PipelineAction) (m : PipelineModel) : List PipelineOp × Bool :=
  match action with
  | .tableCopiesOnly =>
    let s := copyTableSchemasOps m
    let t := copyTablesOps m
    (s ++ t.1, t.2)
  | .cdcOnly =>
    let s := copyTableSchemasOps m
    let c := copyCdcEventsOps m
    (s ++ c.1, c.2)
  | .both =>
    let s := copyTableSchemasOps m
    let t := copyTablesOps m
    if t.2 then
      let c := copyCdcEventsOps m
      (s ++ t.1 ++ c.1, c.2)
    else (s ++ t.1, false)

/-- The trace C1 claims for a Both run, written from the claim (with the
schema write conditional on a non-empty catalog, the amendment): schema
write, then per uncopied table truncate, row batches and table_copied,
then commit, then open CDC at the resumed LSN plus one, then the CDC
batches; copied tables contribute nothing. -/
def claimedBothTrace (m : PipelineModel) : List PipelineOp :=
  (if m.tableSchemasCatalog.isEmpty then [] else [.writeTableSchemas m.tableSchemasCatalog])
  ++ ((m.tableSchemasCatalog.filter fun ts => ts.tableId ∉ m.copiedTables).map fun ts =>
      PipelineOp.truncateTable ts.tableId ::
        ((m.tableBatches ts.tableId).map fun b =>
          PipelineOp.writeTableRows (okFilter b) ts.tableId)
        ++ [PipelineOp.tableCopied ts.tableId]).flatten
  ++ [PipelineOp.commitTransaction, PipelineOp.openCdc (m.lastLsn + 1)]
  ++ (m.cdcBatches.map fun b => PipelineOp.writeCdcEvents (okFilter b))

/-! ## Theorems -/

@[simp] theorem RResult.pure_def {ε α : Type} (a : α) :
    (pure a : RResult ε α) = RResult.ok a := rfl

@[simp] theorem RResult.bind_def {ε α β : Type} (x : RResult ε α) (f : α → RResult ε β) :
    x >>= f = x.bind f := rfl

@[simp] theorem RResult.bind_ok {ε α β : Type} (a : α) (f : α → RResult ε β) :
    (RResult.ok a).bind f = f a := rfl

@[simp] theorem RResult.bind_err {ε α β : Type} (e : ε) (f : α → RResult ε β) :
    (RResult.err e).bind f = RResult.err e := rfl

@[simp] theorem RResult.bind_panic {ε α β : Type} (f : α → RResult ε β) :
    (RResult.panic).bind f = RResult.panic := rfl

/-- C6: for every CdcEvent, is_last_in_batch holds exactly on Commit and
KeepAliveRequested; Begin, Insert, Update, Delete, Relation and Type never
mark a batch boundary. -/
theorem c6_batch_boundary (e : CdcEvent) :
    e.isLastInBatch = isBoundaryClaim e := by
  cases e <;> rfl

/-- C10: a Delete body with a key tuple decodes the row from the key tuple
whatever the old tuple holds (the old tuple is ignored), and when the key
tuple is absent the old tuple is the one decoded. -/
theorem c10_delete_prefers_key_tuple
    (tid : TableId) (cs : List ColumnSchema) (kt : List TupleData)
    (old1 old2 : Option (List TupleData)) (ot : List TupleData) :
    (fromDeleteBody tid cs ⟨tid, some kt, old1⟩ = fromDeleteBody tid cs ⟨tid, some kt, old2⟩
      ∧ fromDeleteBody tid cs ⟨tid, some kt, old1⟩ =
        (fromTupleDataSlice cs kt).bind fun row => .ok (.delete (tid, row)))
    ∧ fromDeleteBody tid cs ⟨tid, none, some ot⟩ =
        (fromTupleDataSlice cs ot).bind fun row => .ok (.delete (tid, row)) := by
  refine ⟨⟨rfl, ?_⟩, ?_⟩ <;> simp [fromDeleteBody, Option.or, bind]

/-- C3: every abnormal input of CdcEventConverter::try_from surfaces as
its designated typed error: Origin and Truncate give MessageNotSupported;
an unknown top-level or logical message gives UnknownReplicationMessage;
Insert, Update and Delete with no schema for their relation id give
MissingSchema of that id; a Delete with neither key nor old tuple (and a
known schema) gives MissingTupleInDeleteBody. -/
theorem c3_errors_surfaced (m : List (TableId × TableSchema)) :
    (∀ ob : OriginBody, cdcTryFrom (.xLogData (.origin ob)) m = .err .messageNotSupported)
    ∧ (∀ tb : TruncateBody, cdcTryFrom (.xLogData (.truncate tb)) m = .err .messageNotSupported)
    ∧ cdcTryFrom .other m = .err .unknownReplicationMessage
    ∧ cdcTryFrom (.xLogData .other) m = .err .unknownReplicationMessage
    ∧ (∀ ib : InsertBody, lookupSchema m ib.relId = none →
        cdcTryFrom (.xLogData (.insert ib)) m = .err (.missingSchema ib.relId))
    ∧ (∀ ub : UpdateBody, lookupSchema m ub.relId = none →
        cdcTryFrom (.xLogData (.update ub)) m = .err (.missingSchema ub.relId))
    ∧ (∀ db : DeleteBody, lookupSchema m db.relId = none →
        cdcTryFrom (.xLogData (.delete db)) m = .err (.missingSchema db.relId))
    ∧ (∀ (db : DeleteBody) (ts : TableSchema), lookupSchema m db.relId = some ts →
        db.keyTuple = none → db.oldTuple = none →
        cdcTryFrom (.xLogData (.delete db)) m = .err .missingTupleInDeleteBody) := by
  refine ⟨fun ob => rfl, fun tb => rfl, rfl, rfl, ?_, ?_, ?_, ?_⟩
  · intro ib h; simp [cdcTryFrom, h]
  · intro ub h; simp [cdcTryFrom, h]
  · intro db h; simp [cdcTryFrom, h]
  · intro db ts h hk ho
    simp [cdcTryFrom, h, fromDeleteBody, hk, ho, Option.or]

/-- Witness for C3 at concrete inputs: an empty schema map, a delete body
with no tuples against a known schema. -/
theorem c3_errors_surfaced_witness :
    cdcTryFrom (.xLogData (.insert ⟨16384, []⟩)) [] = .err (.missingSchema 16384)
    ∧ cdcTryFrom (.xLogData (.delete ⟨7, none, none⟩))
        [(7, ⟨7, [], [], []⟩)] = .err .missingTupleInDeleteBody := by
  have h := c3_errors_surfaced (m := [])
  have h2 := c3_errors_surfaced (m := [((7 : TableId), (⟨7, [], [], []⟩ : TableSchema))])
  refine ⟨h.2.2.2.2.1 ⟨16384, []⟩ (by decide), ?_⟩
  exact h2.2.2.2.2.2.2.2 ⟨7, none, none⟩ ⟨7, [], [], []⟩ (by decide) rfl rfl

/-- C4: from_tuple_data maps Null to Cell::Null and UnchangedToast to the
UnchangedToastNotSupported error for every column type; text payloads are
parsed by type: BOOL accepts t and f and otherwise the Rust bool parse,
INT2/INT4/INT8 parse as signed decimals of the respective range,
TIMESTAMP re-emits the parsed naive timestamp and TIMESTAMPTZ the parsed
fixed-offset timestamp, character types keep the UTF-8 string, every
other type keeps the raw bytes; and the text tuple 1, t, null decoded
against INT4, BOOL, TEXT yields the row I32 1, Bool true, Null. -/
theorem c4_from_tuple_data (b : List Nat) :
    (∀ typ, fromTupleData typ .null = .ok .Null)
    ∧ (∀ typ, fromTupleData typ .unchangedToast = .err .unchangedToastNotSupported)
    ∧ (fromTupleData .bool (.text [116]) = .ok (.Bool true)
      ∧ fromTupleData .bool (.text [102]) = .ok (.Bool false)
      ∧ (utf8Valid b → b ≠ [116] → b ≠ [102] →
          fromTupleData .bool (.text b) =
            match rustParseBool b with
            | some v => .ok (.Bool v)
            | none => .err .invalidBool))
    ∧ (∀ n, fromTupleData .int2 (.text b) = .ok (.I16 n) ↔
        utf8Valid b ∧ rustParseInt (-32768) 32767 b = some n)
    ∧ (∀ n, fromTupleData .int4 (.text b) = .ok (.I32 n) ↔
        utf8Valid b ∧ rustParseInt (-2147483648) 2147483647 b = some n)
    ∧ (∀ n, fromTupleData .int8 (.text b) = .ok (.I64 n) ↔
        utf8Valid b ∧ rustParseInt (-9223372036854775808) 9223372036854775807 b = some n)
    ∧ (utf8Valid b →
        (∀ t, parseNaiveTs b = some t →
          fromTupleData .timestamp (.text b) = .ok (.TimeStamp (formatNaiveTs t)))
        ∧ (parseNaiveTs b = none → fromTupleData .timestamp (.text b) = .err .invalidTimestamp)
        ∧ (∀ t, parseTzTs b = some t →
          fromTupleData .timestamptz (.text b) = .ok (.TimeStamp (formatTzTs t)))
        ∧ (parseTzTs b = none → fromTupleData .timestamptz (.text b) = .err .invalidTimestamp))
    ∧ (∀ typ, isCharLike typ → utf8Valid b → fromTupleData typ (.text b) = .ok (.String b))
    ∧ (∀ typ, ¬ hasDedicatedCdcArm typ → fromTupleData typ (.text b) = .ok (.Bytes b))
    ∧ cdcTryFrom
        (.xLogData (.insert ⟨16384, [.text [49], .text [116], .null]⟩))
        [(16384, ⟨16384, [], [],
          [⟨[], .int4, true, none⟩, ⟨[], .bool, true, none⟩, ⟨[], .text, true, none⟩]⟩)]
        = .ok (.insert (16384, ⟨[.I32 1, .Bool true, .Null]⟩)) := by
  refine ⟨fun typ => by cases typ <;> rfl,
          fun typ => by cases typ <;> rfl,
          ⟨rfl, rfl, ?_⟩, ?_, ?_, ?_, ?_, ?_, ?_, by rfl⟩
  · intro hv h116 h102
    simp [fromTupleData, hv, h116, h102]
  · intro n
    constructor
    · intro h
      by_cases hv : utf8Valid b
      · refine ⟨hv, ?_⟩
        simp [fromTupleData, hv] at h
        rcases hp : rustParseInt (-32768) 32767 b with _ | a <;> rw [hp] at h <;> simp_all
      · simp [fromTupleData, hv] at h
    · rintro ⟨hv, hp⟩
      simp [fromTupleData, hv, hp]
  · intro n
    constructor
    · intro h
      by_cases hv : utf8Valid b
      · refine ⟨hv, ?_⟩
        simp [fromTupleData, hv] at h
        rcases hp : rustParseInt (-2147483648) 2147483647 b with _ | a <;> rw [hp] at h <;>
          simp_all
      · simp [fromTupleData, hv] at h
    · rintro ⟨hv, hp⟩
      simp [fromTupleData, hv, hp]
  · intro n
    constructor
    · intro h
      by_cases hv : utf8Valid b
      · refine ⟨hv, ?_⟩
        simp [fromTupleData, hv] at h
        rcases hp : rustParseInt (-9223372036854775808) 9223372036854775807 b with _ | a <;>
          rw [hp] at h <;> simp_all
      · simp [fromTupleData, hv] at h
    · rintro ⟨hv, hp⟩
      simp [fromTupleData, hv, hp]
  · intro hv
    refine ⟨?_, ?_, ?_, ?_⟩
    · intro t ht; simp [fromTupleData, hv, ht]
    · intro ht; simp [fromTupleData, hv, ht]
    · intro t ht; simp [fromTupleData, hv, ht]
    · intro ht; simp [fromTupleData, hv, ht]
  · intro typ hc hv
    cases typ <;> simp [isCharLike] at hc <;> simp [fromTupleData, hv]
  · intro typ hc
    cases typ <;> simp [hasDedicatedCdcArm] at hc <;> rfl

/-- Witness for C4 at the bytes of the string 1: the INT4 arm parses it to
I32 1 and the fallthrough arm keeps the raw bytes. -/
theorem c4_from_tuple_data_witness :
    fromTupleData .int4 (.text [49]) = .ok (.I32 1)
    ∧ fromTupleData .numeric (.text [49]) = .ok (.Bytes [49]) := by
  have h := c4_from_tuple_data [49]
  refine ⟨((h.2.2.2.2.1 1).2 ⟨by decide, by decide⟩), h.2.2.2.2.2.2.2.2.1 .numeric (by decide)⟩

theorem take_append_of_le {α : Type} (l1 l2 : List α) (n : Nat) (h : n ≤ l1.length) :
    (l1 ++ l2).take n = l1.take n := by
  rw [List.take_append_eq_append_take, Nat.sub_eq_zero_of_le h]
  simp

theorem drop_append_of_le {α : Type} (l1 l2 : List α) (n : Nat) (h : n ≤ l1.length) :
    (l1 ++ l2).drop n = l1.drop n ++ l2 := by
  rw [List.drop_append_eq_append_drop, Nat.sub_eq_zero_of_le h]
  simp

theorem upSteps_spec (d : Nat) : ∀ m : Nat,
    (upSteps m d).2 = d ∨ ((upSteps m d).2 < d ∧ decimalCap ≤ (upSteps m d).1 * 10) := by
  induction d with
  | zero => intro m; left; rfl
  | succ d ih =>
    intro m
    rw [upSteps]
    by_cases h : m * 10 < decimalCap
    · rw [if_pos h]
      rcases ih (m * 10) with h1 | ⟨h1a, h1b⟩
      · left
        show (upSteps (m * 10) d).2 + 1 = d + 1
        omega
      · right
        refine ⟨?_, ?_⟩
        · show (upSteps (m * 10) d).2 + 1 < d + 1
          omega
        · exact h1b
    · rw [if_neg h]
      exact Or.inr ⟨Nat.succ_pos d, Nat.not_lt.mp h⟩

theorem rescaleInternal_scale (m s t : Nat) (ht : t ≤ 28) :
    (rescaleInternal m s t).2 = t ∨
    ((rescaleInternal m s t).2 < t ∧ decimalCap ≤ 10 * (rescaleInternal m s t).1) := by
  unfold rescaleInternal
  by_cases h1 : s = t
  · rw [if_pos h1]; left; exact h1
  rw [if_neg h1]
  by_cases h2 : m = 0
  · rw [if_pos h2]; left; show min t 28 = t; omega
  rw [if_neg h2]
  by_cases h3 : t < s
  · rw [if_pos h3]; left; rfl
  rw [if_neg h3]
  rcases upSteps_spec (t - s) m with h4 | ⟨h4a, h4b⟩
  · left
    show s + (upSteps m (t - s)).2 = t
    omega
  · right
    refine ⟨?_, ?_⟩
    · show s + (upSteps m (t - s)).2 < t
      omega
    · show decimalCap ≤ 10 * (upSteps m (t - s)).1
      rw [Nat.mul_comm]
      exact h4b

theorem cfp_ok_decimal (neg : Bool) (w : Int) (s : Nat) (ds : List Nat) (d : Decimal)
    (h : checkedFromPostgres neg w s ds = .ok d) :
    (d.scale = min s 28 ∨ decimalCap ≤ 10 * d.mantissa) ∧ d.negative = neg := by
  unfold checkedFromPostgres at h
  cases h1 : intPhase w ds <;> rw [h1] at h <;> simp at h
  case ok res0 =>
  cases h2 : fracPhase w ds res0 <;> rw [h2] at h <;> simp at h
  case ok res1 =>
  have hd : d = cfpFinish neg s res1 := h.symm
  subst hd
  refine ⟨?_, rfl⟩
  rcases rescaleInternal_scale res1.mantissa res1.scale (min s 28) (by omega) with h3 | ⟨_, h3b⟩
  · left; exact h3
  · right; exact h3b

theorem fracFold_append (startF : Nat) (xs : List Nat) : ∀ (res : Decimal) (i : Nat) (ys : List Nat),
    fracFold startF res i (xs ++ ys) =
      (fracFold startF res i xs).bind fun r => fracFold startF r (i + xs.length) ys := by
  induction xs with
  | nil => intro res i ys; simp [fracFold]
  | cons x xs ih =>
    intro res i ys
    have hidx : ∀ r : Decimal, fracFold startF r (i + 1 + xs.length) ys =
        fracFold startF r (i + (x :: xs).length) ys := by
      intro r
      have : i + 1 + xs.length = i + (x :: xs).length := by simp [List.length_cons]; omega
      rw [this]
    show fracFold startF res i (x :: (xs ++ ys)) = _
    simp only [fracFold]
    split_ifs with h32 hfp h33 h5
    · rfl
    · cases ha : checkedAdd res (divDigitPow x (4 * (i + 1 + startF))) with
      | none => rfl
      | some r =>
        simp only
        rw [ih r (i + 1) ys]
        have : (i + 1) + xs.length = i + (x :: xs).length := by simp [List.length_cons]; omega
        rw [this]
    · cases ha : checkedAdd res ⟨1, 28, false⟩ with
      | none => rfl
      | some r =>
        simp only
        rw [ih r (i + 1) ys]
        have : (i + 1) + xs.length = i + (x :: xs).length := by simp [List.length_cons]; omega
        rw [this]
    · rw [ih res (i + 1) ys]
      have : (i + 1) + xs.length = i + (x :: xs).length := by simp [List.length_cons]; omega
      rw [this]
    · rw [ih res (i + 1) ys]
      have : (i + 1) + xs.length = i + (x :: xs).length := by simp [List.length_cons]; omega
      rw [this]

theorem fracFold_skip_all (startF : Nat) (ds : List Nat) : ∀ (res : Decimal) (i : Nat),
    9 ≤ i + 1 + startF → 4 * (i + ds.length + startF) < 2 ^ 32 →
    fracFold startF res i ds = .ok res := by
  induction ds with
  | nil => intro res i _ _; rfl
  | cons d ds ih =>
    intro res i h9 hb
    rw [fracFold]
    have h32 : ¬ 2 ^ 32 ≤ 4 * (i + 1 + startF) := by simp at hb ⊢; omega
    have hfp : ¬ 4 * (i + 1 + startF) ≤ 28 := by omega
    have h33 : ¬ 4 * (i + 1 + startF) = 28 + 4 := by omega
    simp only [if_neg h32, if_neg hfp, if_neg h33]
    exact ih res (i + 1) (by omega) (by simp at hb ⊢; omega)

theorem intPhase_append (w : Int) (base tail : List Nat) (h2 : w + 1 ≤ (base.length : Int)) :
    intPhase w (base ++ tail) = intPhase w base := by
  unfold intPhase
  by_cases hw : 0 < w + 1
  · have hlast : cfpLastI w (base ++ tail).length = (w + 1).toNat := by
      unfold cfpLastI
      rw [if_pos hw, if_neg]
      simp; push_cast; omega
    have hlast2 : cfpLastI w base.length = (w + 1).toNat := by
      unfold cfpLastI
      rw [if_pos hw, if_neg]
      omega
    have hsi : cfpStartIntegers w (base ++ tail).length = 0 := by
      unfold cfpStartIntegers
      rw [if_neg]
      simp; push_cast; omega
    have hsi2 : cfpStartIntegers w base.length = 0 := by
      unfold cfpStartIntegers
      rw [if_neg]
      omega
    have htk : (base ++ tail).take ((w + 1).toNat) = base.take ((w + 1).toNat) :=
      take_append_of_le base tail _ (by omega)
    rw [if_pos hw, if_pos hw, hlast, hlast2, hsi, hsi2, htk]
  · rw [if_neg hw, if_neg hw]

theorem fracPhase_truncate (w : Int) (base tail : List Nat) (res0 : Decimal)
    (hw : -32768 < w)
    (h2 : w + 1 ≤ (base.length : Int))
    (h3 : cfpStartF w ≤ 7 → cfpLastI w base.length + (8 - cfpStartF w) ≤ base.length)
    (h4 : base.length + tail.length ≤ 65535) :
    fracPhase w (base ++ tail) res0 =
      fracFold (cfpStartF w) res0 0 (base.drop (cfpLastI w base.length)) := by
  have hsfneg : w < 0 → cfpStartF w = (-w).toNat - 1 := by
    intro h; unfold cfpStartF; rw [if_pos h]
  have hsfpos : 0 ≤ w → cfpStartF w = 0 := by
    intro h; unfold cfpStartF; rw [if_neg (by omega)]
  have hlastpos : 0 < w + 1 → cfpLastI w base.length = (w + 1).toNat := by
    intro h; unfold cfpLastI; rw [if_pos h, if_neg (by omega)]
  have hlastneg : w + 1 ≤ 0 → cfpLastI w base.length = 0 := by
    intro h; unfold cfpLastI; rw [if_neg (by omega)]
  have hsf_le : cfpStartF w ≤ 32766 := by
    by_cases hwn : w < 0
    · rw [hsfneg hwn]; omega
    · rw [hsfpos (by omega)]; omega
  have hlast_le : cfpLastI w base.length ≤ base.length := by
    by_cases hp : 0 < w + 1
    · rw [hlastpos hp]; omega
    · rw [hlastneg (by omega)]; omega
  have hlastfull : cfpLastI w (base ++ tail).length = cfpLastI w base.length := by
    unfold cfpLastI
    by_cases hp : 0 < w + 1
    · rw [if_pos hp, if_pos hp, if_neg (by push_cast [List.length_append]; omega),
        if_neg (by omega)]
    · rw [if_neg hp, if_neg hp]
  have hgate : 0 < (((base ++ tail).length : Nat) : Int) + -w - 1 := by
    by_cases hwn : w < 0
    · by_cases hsf7 : cfpStartF w ≤ 7
      · have h3' := h3 hsf7
        rw [hlastneg (by omega), hsfneg hwn] at h3'
        push_cast [List.length_append]
        omega
      · rw [hsfneg hwn] at hsf7
        push_cast [List.length_append]
        omega
    · have h3' := h3 (by rw [hsfpos (by omega)]; omega)
      rw [hlastpos (by omega), hsfpos (by omega)] at h3'
      push_cast [List.length_append]
      omega
  unfold fracPhase
  rw [if_pos hgate, hlastfull, drop_append_of_le base tail _ hlast_le, fracFold_append]
  cases hres : fracFold (cfpStartF w) res0 0 (base.drop (cfpLastI w base.length)) with
  | panic => simp
  | err e => simp
  | ok r =>
    simp only [RResult.bind_ok]
    have hdroplen : (base.drop (cfpLastI w base.length)).length =
        base.length - cfpLastI w base.length := by simp
    apply fracFold_skip_all
    · rw [hdroplen]
      by_cases hsf7 : cfpStartF w ≤ 7
      · have h3' := h3 hsf7
        omega
      · omega
    · rw [hdroplen]
      omega

theorem cfp_append_eq (neg : Bool) (w : Int) (s : Nat) (base tail1 tail2 : List Nat)
    (hw : -32768 < w)
    (h2 : w + 1 ≤ (base.length : Int))
    (h3 : cfpStartF w ≤ 7 → cfpLastI w base.length + (8 - cfpStartF w) ≤ base.length)
    (h41 : base.length + tail1.length ≤ 65535)
    (h42 : base.length + tail2.length ≤ 65535) :
    checkedFromPostgres neg w s (base ++ tail1) = checkedFromPostgres neg w s (base ++ tail2) := by
  unfold checkedFromPostgres
  rw [intPhase_append w base tail1 h2, intPhase_append w base tail2 h2]
  cases hi : intPhase w base with
  | panic => rfl
  | err e => rfl
  | ok res0 =>
    simp only [RResult.bind_ok]
    rw [fracPhase_truncate w base tail1 res0 hw h2 h3 h41,
      fracPhase_truncate w base tail2 res0 hw h2 h3 h42]

theorem cfpLastI_append (w : Int) (base ext : List Nat) (h2 : w + 1 ≤ (base.length : Int)) :
    cfpLastI w (base ++ ext).length = cfpLastI w base.length := by
  unfold cfpLastI
  by_cases hp : 0 < w + 1
  · rw [if_pos hp, if_pos hp, if_neg (by push_cast [List.length_append]; omega),
      if_neg (by omega)]
  · rw [if_neg hp, if_neg hp]

theorem cfpLastI_le (w : Int) (len : Nat) : cfpLastI w len ≤ len := by
  unfold cfpLastI
  split_ifs <;> omega

theorem fracPhase_split (w : Int) (base ext : List Nat) (res0 : Decimal)
    (h2 : w + 1 ≤ (base.length : Int))
    (hg : 0 < (((base ++ ext).length : Nat) : Int) + -w - 1) :
    fracPhase w (base ++ ext) res0 =
      (fracFold (cfpStartF w) res0 0 (base.drop (cfpLastI w base.length))).bind
        fun r => fracFold (cfpStartF w) r (base.length - cfpLastI w base.length) ext := by
  unfold fracPhase
  rw [if_pos hg, cfpLastI_append w base ext h2,
    drop_append_of_le base ext _ (cfpLastI_le w base.length), fracFold_append]
  have hi : 0 + (base.drop (cfpLastI w base.length)).length =
      base.length - cfpLastI w base.length := by
    simp
  rw [hi]

theorem cfp_boundary_digit (neg : Bool) (w : Int) (s : Nat) (base tail : List Nat) (d d' : Nat)
    (hw : -32768 < w)
    (h2 : w + 1 ≤ (base.length : Int))
    (hsf7 : cfpStartF w ≤ 7)
    (hbl : base.length = cfpLastI w base.length + (7 - cfpStartF w))
    (hiff : 5000 ≤ d ↔ 5000 ≤ d') :
    checkedFromPostgres neg w s (base ++ d :: tail) =
      checkedFromPostgres neg w s (base ++ d' :: tail) := by
  unfold checkedFromPostgres
  rw [intPhase_append w base (d :: tail) h2, intPhase_append w base (d' :: tail) h2]
  cases hi : intPhase w base with
  | panic => rfl
  | err e => rfl
  | ok res0 =>
    simp only [RResult.bind_ok]
    suffices h : fracPhase w (base ++ d :: tail) res0 = fracPhase w (base ++ d' :: tail) res0 by
      rw [h]
    by_cases hg : 0 < (((base ++ d :: tail).length : Nat) : Int) + -w - 1
    · have hg' : 0 < (((base ++ d' :: tail).length : Nat) : Int) + -w - 1 := by
        push_cast [List.length_append, List.length_cons] at hg ⊢
        omega
      rw [fracPhase_split w base (d :: tail) res0 h2 hg,
        fracPhase_split w base (d' :: tail) res0 h2 hg']
      cases hres : fracFold (cfpStartF w) res0 0 (base.drop (cfpLastI w base.length)) with
      | panic => rfl
      | err e => rfl
      | ok r =>
        simp only [RResult.bind_ok]
        have h8 : base.length - cfpLastI w base.length + 1 + cfpStartF w = 8 := by
          have := cfpLastI_le w base.length
          omega
        rw [fracFold, fracFold, h8]
        norm_num
        by_cases h5 : 5000 ≤ d
        · have h5' := hiff.mp h5
          simp only [if_pos h5, if_pos h5']
        · have h5' : ¬ 5000 ≤ d' := fun hh => h5 (hiff.mpr hh)
          simp only [if_neg h5, if_neg h5']
    · have hg' : ¬ 0 < (((base ++ d' :: tail).length : Nat) : Int) + -w - 1 := by
        push_cast [List.length_append, List.length_cons] at hg ⊢
        omega
      unfold fracPhase
      rw [if_neg hg, if_neg hg']

theorem readU16_u16be (v : Nat) (hv : v < 65536) (r : List Nat) :
    readU16 (u16be v ++ r) = some (v, r) := by
  show readU16 (v / 256 % 256 :: v % 256 :: r) = some (v, r)
  have h : v / 256 % 256 * 256 + v % 256 = v := by omega
  simp [readU16, h]

theorem readNU16_enc (ds : List Nat) (h : ∀ x ∈ ds, x < 65536) (r : List Nat) :
    readNU16 ds.length (encU16List ds ++ r) = some (ds, r) := by
  induction ds with
  | nil => simp [readNU16, encU16List]
  | cons x ds ih =>
    have hx : x < 65536 := h x (by simp)
    have hds : ∀ y ∈ ds, y < 65536 := fun y hy => h y (by simp [hy])
    have henc : encU16List (x :: ds) ++ r = u16be x ++ (encU16List ds ++ r) := by
      simp [encU16List]
    show readNU16 (ds.length + 1) (encU16List (x :: ds) ++ r) = some (x :: ds, r)
    rw [henc]
    simp only [readNU16, readU16_u16be x hx, ih hds]

theorem pgNumericFromSql_cons (b1 b2 b3 b4 b5 b6 : Nat) (rest : List Nat) :
    pgNumericFromSql (b1 :: b2 :: b3 :: b4 :: b5 :: b6 :: rest) =
      (if b5 * 256 + b6 = 0xC000 then .ok .NaN
       else if b5 * 256 + b6 = 0xD000 then .ok .PositiveInf
       else if b5 * 256 + b6 = 0xF000 then .ok .NegativeInf
       else if b5 * 256 + b6 = 0x4000 ∨ b5 * 256 + b6 = 0x0000 then
        match readU16 rest with
        | none => .err .ioError
        | some (scale, r4) =>
          match readNU16 (b1 * 256 + b2) r4 with
          | none => .err .ioError
          | some (digits, _) =>
            match checkedFromPostgres (b5 * 256 + b6 = 0x4000) (toI16 (b3 * 256 + b4))
                scale digits with
            | .panic => .panic
            | .err _ => .err .invalidDecimalValue
            | .ok d => .ok (.Value d)
       else .err (.invalidSign (b5 * 256 + b6))) := rfl

/-- C5: decoding binary NUMERIC, sign 0xC000 yields NaN, 0xD000 yields
positive infinity and 0xF000 negative infinity whatever the other fields
hold (they are not even read); any sign outside the five codes is a
decode error carrying that sign, never a PgNumeric value; and a decoded
value is stored non-negative under sign 0x0000 and negative under sign
0x4000. -/
theorem c5_numeric_sign_codes :
    (∀ b1 b2 b3 b4 rest, pgNumericFromSql (b1 :: b2 :: b3 :: b4 :: 192 :: 0 :: rest) = .ok .NaN)
    ∧ (∀ b1 b2 b3 b4 rest,
        pgNumericFromSql (b1 :: b2 :: b3 :: b4 :: 208 :: 0 :: rest) = .ok .PositiveInf)
    ∧ (∀ b1 b2 b3 b4 rest,
        pgNumericFromSql (b1 :: b2 :: b3 :: b4 :: 240 :: 0 :: rest) = .ok .NegativeInf)
    ∧ (∀ b1 b2 b3 b4 s1 s2 rest,
        s1 * 256 + s2 ≠ 0x0000 → s1 * 256 + s2 ≠ 0x4000 → s1 * 256 + s2 ≠ 0xC000 →
        s1 * 256 + s2 ≠ 0xD000 → s1 * 256 + s2 ≠ 0xF000 →
        pgNumericFromSql (b1 :: b2 :: b3 :: b4 :: s1 :: s2 :: rest) =
          .err (.invalidSign (s1 * 256 + s2)))
    ∧ (∀ b1 b2 b3 b4 rest d,
        pgNumericFromSql (b1 :: b2 :: b3 :: b4 :: 0 :: 0 :: rest) = .ok (.Value d) →
        d.negative = false)
    ∧ (∀ b1 b2 b3 b4 rest d,
        pgNumericFromSql (b1 :: b2 :: b3 :: b4 :: 64 :: 0 :: rest) = .ok (.Value d) →
        d.negative = true) := by
  refine ⟨?_, ?_, ?_, ?_, ?_, ?_⟩
  · intro b1 b2 b3 b4 rest
    rw [pgNumericFromSql_cons]
    norm_num
  · intro b1 b2 b3 b4 rest
    rw [pgNumericFromSql_cons]
    norm_num
  · intro b1 b2 b3 b4 rest
    rw [pgNumericFromSql_cons]
    norm_num
  · intro b1 b2 b3 b4 s1 s2 rest h0 h4 hc hd hf
    rw [pgNumericFromSql_cons]
    rw [if_neg hc, if_neg hd, if_neg hf, if_neg (by tauto)]
  · intro b1 b2 b3 b4 rest d h
    rw [pgNumericFromSql_cons] at h
    norm_num at h
    rcases h1 : readU16 rest with _ | ⟨scale, r4⟩ <;> rw [h1] at h <;> simp at h
    rcases h2 : readNU16 (b1 * 256 + b2) r4 with _ | ⟨digits, r5⟩ <;> rw [h2] at h <;> simp at h
    rcases h3 : checkedFromPostgres false (toI16 (b3 * 256 + b4)) scale digits
      with _ | e | dv <;> rw [h3] at h <;> simp at h
    have hneg := (cfp_ok_decimal _ _ _ _ _ h3).2
    simp_all
  · intro b1 b2 b3 b4 rest d h
    rw [pgNumericFromSql_cons] at h
    norm_num at h
    rcases h1 : readU16 rest with _ | ⟨scale, r4⟩ <;> rw [h1] at h <;> simp at h
    rcases h2 : readNU16 (b1 * 256 + b2) r4 with _ | ⟨digits, r5⟩ <;> rw [h2] at h <;> simp at h
    rcases h3 : checkedFromPostgres true (toI16 (b3 * 256 + b4)) scale digits
      with _ | e | dv <;> rw [h3] at h <;> simp at h
    have hneg := (cfp_ok_decimal _ _ _ _ _ h3).2
    simp_all

/-- Witness for C5: the sign 0x1234 is rejected with the invalid-sign
error, and a one-digit positive NUMERIC decodes with a cleared sign
flag. -/
theorem c5_numeric_sign_codes_witness :
    pgNumericFromSql [0, 0, 0, 0, 18, 52] = .err (.invalidSign 4660)
    ∧ (⟨10, 0, false⟩ : Decimal).negative = false := by
  refine ⟨?_, ?_⟩
  · exact c5_numeric_sign_codes.2.2.2.1 0 0 0 0 18 52 []
      (by decide) (by decide) (by decide) (by decide) (by decide)
  · exact c5_numeric_sign_codes.2.2.2.2.1 0 1 0 0 [0, 0, 0, 10] ⟨10, 0, false⟩ (by decide)

/-- C2 counterexample: the one-digit NUMERIC 10 with declared scale 28
decodes to mantissa 10^28 at stored scale 27, because rescaling 10 to
scale 28 would need a 10^29 mantissa, beyond 96 bits; the stored scale is
not min(S, 28) = 28. -/
theorem c2_numeric_scale_counterexample :
    pgNumericFromSql [0, 1, 0, 0, 0, 0, 0, 28, 0, 10] =
      .ok (.Value ⟨10 ^ 28, 27, false⟩)
    ∧ (27 : Nat) ≠ min 28 28 := by
  exact ⟨by decide, by decide⟩

/-- C2 (amended): on the fixed 128-bit decimal path, (a) a decoded value
has stored scale min(S, 28) unless even one more factor of ten would push
the mantissa past 96 bits, in which case the scale stops short at the
largest the mantissa admits; (b) digit groups past the group covering
scales 29 to 32 never influence the result, and the group covering scales
29 to 32 influences it only through whether it is at least 5000: at or
above the threshold the code attempts to add one rounding unit at scale
28 through the checked addition, which rounding at the prevailing
precision may absorb, so digit groups on the same side of the threshold
are interchangeable and below it the group contributes nothing; (c)
overflow of the checked accumulation surfaces as the InvalidDecimalValue
decode error, never as a value. -/
theorem c2_numeric_decode :
    (∀ (neg : Bool) (w : Int) (s : Nat) (ds : List Nat) (d : Decimal),
        checkedFromPostgres neg w s ds = .ok d →
        d.scale = min s 28 ∨ decimalCap ≤ 10 * d.mantissa)
    ∧ (∀ (neg : Bool) (w : Int) (s : Nat) (base tail1 tail2 : List Nat),
        -32768 < w → w + 1 ≤ (base.length : Int) →
        (cfpStartF w ≤ 7 → cfpLastI w base.length + (8 - cfpStartF w) ≤ base.length) →
        base.length + tail1.length ≤ 65535 → base.length + tail2.length ≤ 65535 →
        checkedFromPostgres neg w s (base ++ tail1) = checkedFromPostgres neg w s (base ++ tail2))
    ∧ (∀ (neg : Bool) (w : Int) (s : Nat) (base tail : List Nat) (d d' : Nat),
        -32768 < w → w + 1 ≤ (base.length : Int) → cfpStartF w ≤ 7 →
        base.length = cfpLastI w base.length + (7 - cfpStartF w) →
        (5000 ≤ d ↔ 5000 ≤ d') →
        checkedFromPostgres neg w s (base ++ d :: tail) =
          checkedFromPostgres neg w s (base ++ d' :: tail))
    ∧ (∀ (w16 scale : Nat) (sneg : Bool) (digits : List Nat),
        w16 < 65536 → scale < 65536 → digits.length < 65536 → (∀ x ∈ digits, x < 65536) →
        checkedFromPostgres sneg (toI16 w16) scale digits = .err () →
        pgNumericFromSql (u16be digits.length ++ u16be w16 ++
          u16be (if sneg then 16384 else 0) ++ u16be scale ++ encU16List digits) =
          .err .invalidDecimalValue) := by
  refine ⟨?_, ?_, ?_, ?_⟩
  · intro neg w s ds d h
    exact (cfp_ok_decimal neg w s ds d h).1
  · intro neg w s base tail1 tail2 hw h2 h3 h41 h42
    exact cfp_append_eq neg w s base tail1 tail2 hw h2 h3 h41 h42
  · intro neg w s base tail d d' hw h2 hsf7 hbl hiff
    exact cfp_boundary_digit neg w s base tail d d' hw h2 hsf7 hbl hiff
  · intro w16 scale sneg digits hw hs hlen hall hcfp
    cases sneg with
    | false =>
      have hsgn : (if (false : Bool) then (16384 : Nat) else 0) = 0 := rfl
      rw [hsgn]
      unfold pgNumericFromSql
      simp only [List.append_assoc]
      rw [readU16_u16be digits.length hlen]
      simp only
      rw [readU16_u16be w16 hw]
      simp only
      rw [readU16_u16be 0 (by norm_num)]
      simp only
      norm_num
      rw [readU16_u16be scale hs]
      simp only
      rw [show encU16List digits = encU16List digits ++ [] from (List.append_nil _).symm,
        readNU16_enc digits hall []]
      simp only
      rw [hcfp]
    | true =>
      have hsgn : (if (true : Bool) then (16384 : Nat) else 0) = 16384 := rfl
      rw [hsgn]
      unfold pgNumericFromSql
      simp only [List.append_assoc]
      rw [readU16_u16be digits.length hlen]
      simp only
      rw [readU16_u16be w16 hw]
      simp only
      rw [readU16_u16be 16384 (by norm_num)]
      simp only
      norm_num
      rw [readU16_u16be scale hs]
      simp only
      rw [show encU16List digits = encU16List digits ++ [] from (List.append_nil _).symm,
        readNU16_enc digits hall []]
      simp only
      rw [hcfp]

/-- Witness for C2 at concrete inputs: the value 2 at declared scale 2
keeps scale 2; digit groups past the scale-32 group are dropped; the
scale-32 group only matters through the 5000 threshold; an
integer-overflow input surfaces as InvalidDecimalValue. -/
theorem c2_numeric_decode_witness :
    ((⟨200, 2, false⟩ : Decimal).scale = min 2 28 ∨
      decimalCap ≤ 10 * (⟨200, 2, false⟩ : Decimal).mantissa)
    ∧ checkedFromPostgres false 0 5 ([1, 0, 0, 0, 0, 0, 0, 0, 0] ++ [123]) =
        checkedFromPostgres false 0 5 ([1, 0, 0, 0, 0, 0, 0, 0, 0] ++ [])
    ∧ checkedFromPostgres false 0 28 ([1, 0, 0, 0, 0, 0, 0, 0] ++ 6000 :: []) =
        checkedFromPostgres false 0 28 ([1, 0, 0, 0, 0, 0, 0, 0] ++ 9000 :: [])
    ∧ pgNumericFromSql (u16be (List.replicate 8 9999).length ++ u16be 7 ++
        u16be (if false then 16384 else 0) ++ u16be 0 ++ encU16List (List.replicate 8 9999)) =
        .err .invalidDecimalValue := by
  refine ⟨?_, ?_, ?_, ?_⟩
  · exact c2_numeric_decode.1 false 0 2 [2] ⟨200, 2, false⟩ (by decide)
  · exact c2_numeric_decode.2.1 false 0 5 [1, 0, 0, 0, 0, 0, 0, 0, 0] [123] []
      (by decide) (by decide) (by decide) (by decide) (by decide)
  · exact c2_numeric_decode.2.2.1 false 0 28 [1, 0, 0, 0, 0, 0, 0, 0] [] 6000 9000
      (by decide) (by decide) (by decide) (by decide) (by decide)
  · exact c2_numeric_decode.2.2.2 7 0 false (List.replicate 8 9999)
      (by decide) (by decide) (by decide) (by decide) (by decide)

/-- C7: for every scalar type T of the conversion matrix, Cell::Null
converts to Optional T as none; every other variant delegates to the
plain Cell-to-T conversion, which succeeds exactly on the variant
matching T; and the Optional-Vec-Optional conversion maps Null and
Array(Null) to none, accepts an Array through the ArrayCell conversion,
and errors on every other variant. -/
theorem c7_option_conversions (t : Conversions.ScalarT) :
    Conversions.tryIntoOption t Conversions.Cell.Null = some none
    ∧ (∀ c : Conversions.Cell, c ≠ Conversions.Cell.Null →
        Conversions.tryIntoOption t c = (Conversions.ScalarT.extract t c).map some)
    ∧ (∀ c : Conversions.Cell,
        (Conversions.ScalarT.extract t c).isSome = true ↔ Conversions.cellTag c = some t)
    ∧ Conversions.tryIntoOptionVecOption t Conversions.Cell.Null = some none
    ∧ Conversions.tryIntoOptionVecOption t (Conversions.Cell.Array Conversions.ArrayCell.Null) =
        some none
    ∧ (∀ ac : Conversions.ArrayCell, ac ≠ Conversions.ArrayCell.Null →
        Conversions.tryIntoOptionVecOption t (Conversions.Cell.Array ac) =
          (Conversions.ScalarT.arrExtract t ac).map some)
    ∧ (∀ c : Conversions.Cell, c ≠ Conversions.Cell.Null →
        (∀ ac, c ≠ Conversions.Cell.Array ac) →
        Conversions.tryIntoOptionVecOption t c = none) := by
  refine ⟨?_, ?_, ?_, ?_, ?_, ?_, ?_⟩
  · cases t <;> rfl
  · intro c hc
    cases c <;> first
      | exact absurd rfl hc
      | rfl
  · intro c
    cases t <;> cases c <;>
      simp [Conversions.ScalarT.extract, Conversions.cellTag]
  · cases t <;> rfl
  · cases t <;> rfl
  · intro ac hac
    cases ac <;> first
      | exact absurd rfl hac
      | rfl
  · intro c hc hnac
    cases c <;> first
      | exact absurd rfl hc
      | exact absurd rfl (hnac _)
      | rfl

/-- Witness for C7 at the scalar type i32: a Bool cell is not converted
to Optional i32 but delegates and fails, and a non-array cell fails the
Optional-Vec conversion. -/
theorem c7_option_conversions_witness :
    Conversions.tryIntoOption .i32 (Conversions.Cell.Bool true) =
        (Conversions.ScalarT.extract .i32 (Conversions.Cell.Bool true)).map some
    ∧ Conversions.tryIntoOptionVecOption .i32 (Conversions.Cell.Bool true) = none
    ∧ Conversions.tryIntoOptionVecOption .i32
        (Conversions.Cell.Array (Conversions.ArrayCell.I32 [some 5, none])) =
        (Conversions.ScalarT.arrExtract .i32 (Conversions.ArrayCell.I32 [some 5, none])).map some := by
  refine ⟨?_, ?_, ?_⟩
  · exact (c7_option_conversions .i32).2.1 (Conversions.Cell.Bool true) (by decide)
  · exact (c7_option_conversions .i32).2.2.2.2.2.2 (Conversions.Cell.Bool true)
      (by decide) (by intro ac; simp)
  · exact (c7_option_conversions .i32).2.2.2.2.2.1
      (Conversions.ArrayCell.I32 [some 5, none]) (by decide)

/-- C8 counterexample: a non-nullable column of a fallback type (FLOAT8)
whose value is absent yields Ok Bytes of the empty buffer through
VecWrapper, not a type-conversion error. -/
theorem c8_nonnullable_counterexample :
    getCellValue [none] ⟨[], .float8, false, none⟩ 0 = .ok (.Bytes [])
    ∧ (getCellValue [none] ⟨[], .float8, false, none⟩ 0).isErr = false := ⟨rfl, rfl⟩

/-- C8 (amended): in get_cell_value, a nullable column maps an absent
value to Cell::Null in every arm; a nullable column of a fallback type
maps an empty buffer to Cell::Null as well; a non-nullable column of an
enumerated type panics on an absent value (the driver unwrap), and a
non-nullable column of a fallback type yields Bytes of the empty buffer,
in neither case a typed conversion error. -/
theorem c8_null_policy :
    (∀ (row : List (Option (List Nat))) (cs : ColumnSchema) (i : Nat),
        cs.nullable = true → row[i]? = some none → getCellValue row cs i = .ok .Null)
    ∧ (∀ (row : List (Option (List Nat))) (cs : ColumnSchema) (i : Nat),
        cs.nullable = true → ¬ hasDedicatedCopyArm cs.typ = true → row[i]? = some (some []) →
        getCellValue row cs i = .ok .Null)
    ∧ (∀ (row : List (Option (List Nat))) (cs : ColumnSchema) (i : Nat),
        cs.nullable = false → hasDedicatedCopyArm cs.typ = true → row[i]? = some none →
        getCellValue row cs i = .panic)
    ∧ (∀ (row : List (Option (List Nat))) (cs : ColumnSchema) (i : Nat),
        cs.nullable = false → ¬ hasDedicatedCopyArm cs.typ = true → row[i]? = some none →
        getCellValue row cs i = .ok (.Bytes [])) := by
  refine ⟨?_, ?_, ?_, ?_⟩
  · intro row cs i hn hv
    rcases cs with ⟨nm, typ, nb, pk⟩
    simp only at hn
    subst hn
    cases typ <;>
      simp [getCellValue, hasDedicatedCopyArm, hv, colDecode, nullableCell,
        tryGetBool, tryGetStr, tryGetIntWidth, tryGetTimestamp, tryGetUuid, tryGetUuidVec,
        strAccepts, vecWrapperBytes]
  · intro row cs i hn hd hv
    rcases cs with ⟨nm, typ, nb, pk⟩
    simp only at hn hd
    subst hn
    cases typ <;> simp [hasDedicatedCopyArm] at hd <;>
      simp [getCellValue, hasDedicatedCopyArm, hv, vecWrapperBytes]
  · intro row cs i hn hd hv
    rcases cs with ⟨nm, typ, nb, pk⟩
    simp only at hn hd
    subst hn
    cases typ <;> simp [hasDedicatedCopyArm] at hd <;>
      simp [getCellValue, hasDedicatedCopyArm, hv, colDecode, requiredCell,
        tryGetBool, tryGetStr, tryGetIntWidth, tryGetTimestamp, tryGetUuid, tryGetUuidVec,
        strAccepts]
  · intro row cs i hn hd hv
    rcases cs with ⟨nm, typ, nb, pk⟩
    simp only at hn hd
    subst hn
    cases typ <;> simp [hasDedicatedCopyArm] at hd <;>
      simp [getCellValue, hasDedicatedCopyArm, hv, vecWrapperBytes]

/-- Witness for C8 at concrete inputs: a nullable INT4 with a null value,
a nullable NUMERIC with an empty buffer, a non-nullable BOOL with a null
value. -/
theorem c8_null_policy_witness :
    getCellValue [none] ⟨[], .int4, true, none⟩ 0 = .ok .Null
    ∧ getCellValue [some []] ⟨[], .numeric, true, none⟩ 0 = .ok .Null
    ∧ getCellValue [none] ⟨[], .bool, false, none⟩ 0 = .panic := by
  refine ⟨?_, ?_, ?_⟩
  · exact c8_null_policy.1 [none] ⟨[], .int4, true, none⟩ 0 rfl rfl
  · exact c8_null_policy.2.1 [some []] ⟨[], .numeric, true, none⟩ 0 rfl (by decide) rfl
  · exact c8_null_policy.2.2.1 [none] ⟨[], .bool, false, none⟩ 0 rfl (by decide) rfl

theorem collectOk_all_ok {α : Type} (b : List (Except Unit α))
    (h : ∀ e ∈ b, ∃ r, e = .ok r) : collectOk b = some (okFilter b) := by
  induction b with
  | nil => rfl
  | cons e rest ih =>
    rcases h e (by simp) with ⟨r, rfl⟩
    rw [show collectOk (Except.ok r :: rest) = (collectOk rest).map (r :: ·) from rfl,
      ih (fun e he => h e (by simp [he]))]
    simp [okFilter]

theorem processBatches_all_ok (tid : TableId) (batches : List (List (Except Unit TableRow)))
    (h : ∀ b ∈ batches, ∀ e ∈ b, ∃ r, e = .ok r) :
    processBatches tid batches =
      (batches.map fun b => PipelineOp.writeTableRows (okFilter b) tid, true) := by
  induction batches with
  | nil => rfl
  | cons b rest ih =>
    rw [processBatches, collectOk_all_ok b (h b (by simp)),
      ih (fun b2 hb2 => h b2 (by simp [hb2]))]
    simp

theorem processCdcBatches_all_ok (batches : List (List (Except Unit CdcEvent)))
    (h : ∀ b ∈ batches, ∀ e ∈ b, ∃ r, e = .ok r) :
    processCdcBatches batches =
      (batches.map fun b => PipelineOp.writeCdcEvents (okFilter b), true) := by
  induction batches with
  | nil => rfl
  | cons b rest ih =>
    rw [processCdcBatches, collectOk_all_ok b (h b (by simp)),
      ih (fun b2 hb2 => h b2 (by simp [hb2]))]
    simp

theorem copyTablesGo_all_ok (m : PipelineModel) (cat : List TableSchema)
    (h : ∀ ts ∈ cat, ∀ b ∈ m.tableBatches ts.tableId, ∀ e ∈ b, ∃ r, e = .ok r) :
    copyTablesOps.go m cat =
      (((cat.filter fun ts => ts.tableId ∉ m.copiedTables).map fun ts =>
          PipelineOp.truncateTable ts.tableId ::
            ((m.tableBatches ts.tableId).map fun b =>
              PipelineOp.writeTableRows (okFilter b) ts.tableId)
            ++ [PipelineOp.tableCopied ts.tableId]).flatten
        ++ [PipelineOp.commitTransaction], true) := by
  induction cat with
  | nil => rfl
  | cons ts rest ih =>
    have hrest := ih (fun t ht => h t (by simp [ht]))
    by_cases hmem : ts.tableId ∈ m.copiedTables
    · rw [copyTablesOps.go, if_pos hmem, hrest]
      have hfil : (ts :: rest).filter (fun t => decide (t.tableId ∉ m.copiedTables)) =
          rest.filter (fun t => decide (t.tableId ∉ m.copiedTables)) := by
        simp [List.filter_cons, hmem]
      rw [hfil]
    · rw [copyTablesOps.go, if_neg hmem,
        processBatches_all_ok ts.tableId (m.tableBatches ts.tableId) (h ts (by simp))]
      simp only [if_pos]
      rw [hrest]
      have hfil : (ts :: rest).filter (fun t => decide (t.tableId ∉ m.copiedTables)) =
          ts :: rest.filter (fun t => decide (t.tableId ∉ m.copiedTables)) := by
        simp [List.filter_cons, hmem]
      rw [hfil]
      simp [List.append_assoc]

theorem processBatches_no_schema (tid : TableId) (bs : List (List (Except Unit TableRow))) :
    ((processBatches tid bs).1.all fun op => !op.isWriteTableSchemas) = true := by
  induction bs with
  | nil => rfl
  | cons b rest ih =>
    rw [processBatches]
    cases hb : collectOk b with
    | none => rfl
    | some rows => simpa [PipelineOp.isWriteTableSchemas] using ih

theorem processCdcBatches_no_schema (bs : List (List (Except Unit CdcEvent))) :
    ((processCdcBatches bs).1.all fun op => !op.isWriteTableSchemas) = true := by
  induction bs with
  | nil => rfl
  | cons b rest ih =>
    rw [processCdcBatches]
    cases hb : collectOk b with
    | none => rfl
    | some evs => simpa [PipelineOp.isWriteTableSchemas] using ih

theorem copyTablesGo_no_schema (m : PipelineModel) (cat : List TableSchema) :
    ((copyTablesOps.go m cat).1.all fun op => !op.isWriteTableSchemas) = true := by
  induction cat with
  | nil => rfl
  | cons ts rest ih =>
    rw [copyTablesOps.go]
    by_cases hmem : ts.tableId ∈ m.copiedTables
    · rw [if_pos hmem]
      exact ih
    · rw [if_neg hmem]
      have hp := processBatches_no_schema ts.tableId (m.tableBatches ts.tableId)
      by_cases hs : (processBatches ts.tableId (m.tableBatches ts.tableId)).2
      · simp only [if_pos hs]
        simp_all [PipelineOp.isWriteTableSchemas, List.all_append]
      · simp only [if_neg hs]
        simp_all [PipelineOp.isWriteTableSchemas]

/-- C1 counterexample: with an empty source catalog a Both run issues no
write_table_schemas at all (the trace is just the commit and the CDC
open), while the claim requires every Both run to begin by writing the
table schemas. -/
theorem c1_pipeline_counterexample :
    (pipelineStart .both ⟨[], [], 100, fun _ => [], []⟩).1 =
      [.commitTransaction, .openCdc 101]
    ∧ ((pipelineStart .both ⟨[], [], 100, fun _ => [], []⟩).1.all
        fun op => !op.isWriteTableSchemas) = true := ⟨rfl, rfl⟩

/-- C1 (amended): a Both run whose copy and CDC batches carry no errors
issues exactly: the schema write (when the catalog is non-empty; an empty
catalog skips it), then per uncopied table the truncate, one
write_table_rows per batch, and table_copied, then commit_transaction,
then the CDC open at exactly the resumed LSN plus one, then the CDC batch
writes; the run succeeds, and tables in the copied set receive no
truncate, row write or table_copied. -/
theorem c1_pipeline_order (m : PipelineModel)
    (hrows : ∀ ts ∈ m.tableSchemasCatalog, ∀ b ∈ m.tableBatches ts.tableId,
      ∀ e ∈ b, ∃ r, e = .ok r)
    (hcdc : ∀ b ∈ m.cdcBatches, ∀ e ∈ b, ∃ r, e = .ok r) :
    (pipelineStart .both m).1 = claimedBothTrace m
    ∧ (pipelineStart .both m).2 = true
    ∧ (∀ ts ∈ m.tableSchemasCatalog, ts.tableId ∈ m.copiedTables →
        ((pipelineStart .both m).1.all fun op => !(op.touchesTable ts.tableId)) = true) := by
  have ht := copyTablesGo_all_ok m m.tableSchemasCatalog hrows
  have hc := processCdcBatches_all_ok m.cdcBatches hcdc
  have htrace : (pipelineStart .both m).1 = claimedBothTrace m ∧
      (pipelineStart .both m).2 = true := by
    rw [show pipelineStart .both m =
        (let s := copyTableSchemasOps m
         let t := copyTablesOps m
         if t.2 then
           let c := copyCdcEventsOps m
           (s ++ t.1 ++ c.1, c.2)
         else (s ++ t.1, false)) from rfl]
    rw [show copyTablesOps m = copyTablesOps.go m m.tableSchemasCatalog from rfl, ht]
    rw [show copyCdcEventsOps m =
        (let p := processCdcBatches m.cdcBatches
         (.openCdc (m.lastLsn + 1) :: p.1, p.2)) from rfl, hc]
    simp [claimedBothTrace, copyTableSchemasOps, List.append_assoc]
  refine ⟨htrace.1, htrace.2, ?_⟩
  intro ts hts hmem
  rw [htrace.1, List.all_eq_true]
  intro op hop
  simp only [claimedBothTrace, List.mem_append] at hop
  rcases hop with ((hop | hop) | hop) | hop
  · by_cases he : m.tableSchemasCatalog.isEmpty
    · simp [he] at hop
    · simp [he] at hop
      subst hop
      rfl
  · rw [List.mem_flatten] at hop
    rcases hop with ⟨l, hl, hopl⟩
    rcases List.mem_map.mp hl with ⟨ts2, hts2, rfl⟩
    have hnot : ts2.tableId ∉ m.copiedTables := by
      have h2 := (List.mem_filter.mp hts2).2
      simpa using h2
    have hne : ts2.tableId ≠ ts.tableId := fun hh => hnot (hh ▸ hmem)
    rcases List.mem_cons.mp hopl with rfl | hop2
    · simp [PipelineOp.touchesTable, hne]
    · rcases List.mem_append.mp hop2 with hop3 | hop3
      · rcases List.mem_map.mp hop3 with ⟨b, hb, rfl⟩
        simp [PipelineOp.touchesTable, hne]
      · have hoc : op = PipelineOp.tableCopied ts2.tableId := by simpa using hop3
        subst hoc
        simp [PipelineOp.touchesTable, hne]
  · rcases List.mem_cons.mp hop with rfl | hop2
    · rfl
    · have hoc : op = PipelineOp.openCdc (m.lastLsn + 1) := by simpa using hop2
      subst hoc
      rfl
  · rcases List.mem_map.mp hop with ⟨b, hb, rfl⟩
    rfl

/-- Witness for C1 at a one-table model: the full trace in the claimed
order with CDC opened at 101. -/
theorem c1_pipeline_order_witness :
    (pipelineStart .both ⟨[⟨7, [], [], []⟩], [], 100,
        fun _ => [[Except.ok ⟨[]⟩]], [[Except.ok (.keepAliveRequested true)]]⟩).1 =
      [.writeTableSchemas [⟨7, [], [], []⟩],
       .truncateTable 7, .writeTableRows [⟨[]⟩] 7, .tableCopied 7,
       .commitTransaction, .openCdc 101,
       .writeCdcEvents [.keepAliveRequested true]] := by
  have h := c1_pipeline_order ⟨[⟨7, [], [], []⟩], [], 100,
      fun _ => [[Except.ok ⟨[]⟩]], [[Except.ok (.keepAliveRequested true)]]⟩
    (by intro ts hts b hb e he; simp_all)
    (by intro b hb e he; simp_all)
  rw [h.1]
  rfl

/-- C9 counterexample: a CdcOnly run with an empty catalog does CDC work
without any write_table_schemas call, while the claim requires the
schema write unconditionally before any work. -/
theorem c9_schema_write_counterexample :
    (pipelineStart .cdcOnly ⟨[], [], 5, fun _ => [], []⟩).1 = [.openCdc 6]
    ∧ ((pipelineStart .cdcOnly ⟨[], [], 5, fun _ => [], []⟩).1.all
        fun op => !op.isWriteTableSchemas) = true := ⟨rfl, rfl⟩

/-- C9 (amended): for every action, when the source catalog is non-empty
the first operation of the run is write_table_schemas with the full
catalog, before any copy or CDC work; when the catalog is empty the call
is skipped and the run issues no schema write at all. -/
theorem c9_schema_write_first :
    (∀ (a : PipelineAction) (m : PipelineModel), m.tableSchemasCatalog ≠ [] →
      (pipelineStart a m).1.head? = some (.writeTableSchemas m.tableSchemasCatalog))
    ∧ (∀ (a : PipelineAction) (m : PipelineModel), m.tableSchemasCatalog = [] →
      ((pipelineStart a m).1.all fun op => !op.isWriteTableSchemas) = true) := by
  constructor
  · intro a m hne
    have he : m.tableSchemasCatalog.isEmpty = false := by
      cases hcat : m.tableSchemasCatalog with
      | nil => exact absurd hcat hne
      | cons t ts => rfl
    cases a <;> simp only [pipelineStart, copyTableSchemasOps, he] <;>
      first
        | (split <;> simp_all)
        | simp_all
  · intro a m hcat
    have he : m.tableSchemasCatalog.isEmpty = true := by rw [hcat]; rfl
    have hgo := copyTablesGo_no_schema m m.tableSchemasCatalog
    have hcdc := processCdcBatches_no_schema m.cdcBatches
    cases a <;>
      simp only [pipelineStart, copyTableSchemasOps, copyCdcEventsOps, he, if_pos,
        List.nil_append] <;>
      first
        | simpa [copyTablesOps] using hgo
        | simpa [PipelineOp.isWriteTableSchemas] using hcdc
        | (split <;>
            simp_all [copyTablesOps, PipelineOp.isWriteTableSchemas, List.all_append])

/-- Witness for C9: a CdcOnly run over a one-table catalog begins with
the schema write. -/
theorem c9_schema_write_first_witness :
    (pipelineStart .cdcOnly ⟨[⟨7, [], [], []⟩], [], 5, fun _ => [], []⟩).1.head? =
      some (.writeTableSchemas [⟨7, [], [], []⟩]) := by
  exact c9_schema_write_first.1 .cdcOnly ⟨[⟨7, [], [], []⟩], [], 5, fun _ => [], []⟩ (by simp)
